import Mathlib

/-!
The polling log-file reader of `filebeat/harvester/reader/log.go`.

A shallow embedding of `logFileReader` (constructor, `Read`, `errorChecks`,
`wait`) over an explicit world.  Everything the Go code obtains from outside
(the file source, the clock, the `done` channel, the filesystem, `time.Sleep`)
is a field of `Env`, a record of functions over a world type `W`; every call
that performs I/O hands back the next world, so the file may grow, shrink, be
renamed or removed between any two calls.

* `int64`/`time.Duration` arithmetic that can overflow (`offset += n`,
  `backoff * factor`) wraps through `wrapInt64`; `int` is taken to be 64 bits.
* `time.Since` saturates like `Time.Sub` does (`timeSince`).
* The `for` loop of `Read` is `step` (one iteration) driven by `loop` with a
  fuel bound; `loop` is total and returns the state reached together with
  `none` when the fuel ran out before `Read` returned.
* Each iteration appends the I/O it performed to a trace of `Event`s, so that
  "no stat", "exactly one read", "slept d" are statements about the trace.
* `recordSleeps env` is `env` over worlds that also keep the durations handed
  to `time.Sleep`; statements about how long the reader sleeps are statements
  about that list, and `step_log` shows that the sleeps of the trace agree
  with it.
* Logging (`logp.Err`, `logp.Debug`, `r.fs.Name()` as a log argument) has no
  effect on the reader and is left out.
-/

namespace Beats

/-! ## Data model -/

abbrev Byte := UInt8

/-- Error values: `io.EOF`, the four package-level signals of `log.go`, and any
other error value (told apart by a code). -/
inductive Err where
  | EOF
  | ErrFileTruncate
  | ErrRenamed
  | ErrRemoved
  | ErrInactive
  | other (code : Nat)
  deriving DecidableEq, Repr

/-- What `os.FileInfo` is used for: `Size()` and the identity of the file. -/
structure FileInfo where
  size : Int
  ident : Nat
  deriving DecidableEq, Repr

/-- The mirror of `LogFileReaderConfig`. -/
structure LogFileReaderConfig where
  Backoff : Int
  MaxBackoff : Int
  BackoffFactor : Int
  CloseEOF : Bool
  CloseInactive : Int
  CloseRenamed : Bool
  CloseRemoved : Bool
  deriving DecidableEq, Repr

/-- The mutable fields of `logFileReader`; `fs` and `done` live in `Env`. -/
structure LogFileReader where
  offset : Int
  config : LogFileReaderConfig
  lastTimeRead : Int
  backoff : Int
  deriving DecidableEq, Repr

/-- Result of one `fs.Read(buf)`: the count, the error, the bytes the source
stored at the start of the slice, and the next world. -/
structure ReadOut (W : Type) where
  n : Int
  err : Option Err
  data : List Byte
  w : W

/-- The outside of the reader. -/
structure Env (W : Type) where
  /-- The non-blocking poll `select { case <-r.done: ... default: }`: is the signal set now. -/
  done : W → Bool
  /-- The call `r.fs.Read(buf)` on the current slice. -/
  fsRead : W → List Byte → ReadOut W
  /-- The call `r.fs.Stat()`. -/
  fsStat : W → Except Err FileInfo × W
  /-- The call `r.fs.Continuable()`. -/
  continuable : Bool
  /-- The assertion `fs.(io.Seeker)` with `Seek(0, os.SEEK_CUR)`; `none` when not seekable. -/
  seeker : Option (W → Except Err Int × W)
  /-- The call `file.IsSameFile(r.fs.Name(), info)`. -/
  isSameFile : W → FileInfo → Bool × W
  /-- The call `os.Stat(r.fs.Name())`: the error, if any. -/
  osStat : W → Option Err × W
  /-- The clock, `time.Now()`. -/
  now : W → Int
  /-- The call `time.Sleep(d)`. -/
  sleep : W → Int → W

/-- The I/O a call performs, in order. -/
inductive Event where
  | read (n : Int) (err : Option Err) (bytes : List Byte)
  | stat
  | sameFile
  | pathStat
  | sleep (d : Int)
  deriving DecidableEq, Repr

/-- What a `Read` call ends with: a return `(n, err)` or the run-time panic of
an out-of-range `buf[n:]`. -/
inductive Outcome where
  | ret (n : Int) (err : Option Err)
  | indexError
  deriving DecidableEq, Repr

/-- State of a `Read` call between two loop iterations: the reader, the world,
the part `pre` of the caller's buffer in front of the current slice, the
current slice `buf`, and the trace so far. -/
structure St (W : Type) where
  r : LogFileReader
  w : W
  pre : List Byte
  buf : List Byte
  trace : List Event

/-! ## Arithmetic -/

/-- Two's complement wrap-around of `int64`. -/
def wrapInt64 (x : Int) : Int := (x + 2 ^ 63) % 2 ^ 64 - 2 ^ 63

def maxInt64 : Int := 2 ^ 63 - 1

def minInt64 : Int := -(2 ^ 63)

/-- The `time.Since(t)` of a clock reading `now`, saturating as `Time.Sub`. -/
def timeSince (now t : Int) : Int :=
  if now - t > maxInt64 then maxInt64
  else if now - t < minInt64 then minInt64
  else now - t

/-- The slice after the source stored `data` at its start. -/
def writeInto (buf data : List Byte) : List Byte :=
  data.take buf.length ++ buf.drop data.length

/-! ## The reader -/

/-- The embedding of `NewLogFileReader`. -/
def NewLogFileReader {W : Type} (env : Env W) (config : LogFileReaderConfig) (w : W) :
    Except Err LogFileReader × W :=
  match env.seeker with
  | some seek =>
    match seek w with
    | (.error e, w1) => (.error e, w1)
    | (.ok off, w1) =>
      (.ok { offset := off, config := config, lastTimeRead := env.now w1,
             backoff := config.Backoff }, w1)
  | none =>
    (.ok { offset := 0, config := config, lastTimeRead := env.now w,
           backoff := config.Backoff }, w)

/-- The removal check that ends `errorChecks` (the `CloseRemoved` block and the
final `return nil`), entered in world `w` after the I/O `evs`. -/
def removedCheck {W : Type} (env : Env W) (r : LogFileReader) (w : W) (evs : List Event) :
    Option Err × W × List Event :=
  if r.config.CloseRemoved = true then
    match env.osStat w with
    | (some _, w1) => (some Err.ErrRemoved, w1, evs ++ [Event.pathStat])
    | (none, w1) => (none, w1, evs ++ [Event.pathStat])
  else (none, w, evs)

/-- The embedding of `errorChecks`: the returned error, the world after it and
the I/O it performed. -/
def errorChecks {W : Type} (env : Env W) (r : LogFileReader) (w : W) (err : Err) :
    Option Err × W × List Event :=
  if err = Err.EOF ∧ r.config.CloseEOF = true then (some err, w, [])
  else
    match env.fsStat w with
    | (.error statErr, w1) => (some statErr, w1, [Event.stat])
    | (.ok info, w1) =>
      if info.size < r.offset then (some Err.ErrFileTruncate, w1, [Event.stat])
      else if timeSince (env.now w1) r.lastTimeRead > r.config.CloseInactive then
        (some Err.ErrInactive, w1, [Event.stat])
      else if r.config.CloseRenamed = true then
        match env.isSameFile w1 info with
        | (false, w2) => (some Err.ErrRenamed, w2, [Event.stat, Event.sameFile])
        | (true, w2) => removedCheck env r w2 [Event.stat, Event.sameFile]
      else removedCheck env r w1 [Event.stat]

/-- The embedding of `wait`: sleep for the backoff, then grow it. -/
def wait {W : Type} (env : Env W) (r : LogFileReader) (w : W) : LogFileReader × W :=
  let w1 := env.sleep w r.backoff
  if r.backoff < r.config.MaxBackoff then
    let b := wrapInt64 (r.backoff * r.config.BackoffFactor)
    if b > r.config.MaxBackoff then ({ r with backoff := r.config.MaxBackoff }, w1)
    else ({ r with backoff := b }, w1)
  else (r, w1)

/-- The bookkeeping after a source read of `n` bytes at clock reading `now`
(`if n > 0 { r.offset += int64(n); r.lastTimeRead = time.Now() }`). -/
def noteRead (r : LogFileReader) (n now : Int) : LogFileReader :=
  if n > 0 then { r with offset := wrapInt64 (r.offset + n), lastTimeRead := now } else r

/-- The state of an iteration once `n, err := r.fs.Read(buf)` and the
bookkeeping under `if n > 0` are done. -/
def afterRead {W : Type} (env : Env W) (st : St W) : St W :=
  let rd := env.fsRead st.w st.buf
  let buf1 := writeInto st.buf rd.data
  { r := noteRead st.r rd.n (env.now rd.w), w := rd.w, pre := st.pre, buf := buf1,
    trace := st.trace ++ [Event.read rd.n rd.err (buf1.take rd.n.toNat)] }

/-- One iteration of the `for` loop of `Read`: the state after it, and the
outcome when the iteration returns. -/
def step {W : Type} (env : Env W) (st : St W) : St W × Option Outcome :=
  if env.done st.w = true then (st, some (Outcome.ret 0 none))
  else
    let rd := env.fsRead st.w st.buf
    let s1 := afterRead env st
    match rd.err with
    | none =>
      ({ s1 with r := { s1.r with backoff := s1.r.config.Backoff } }, some (Outcome.ret rd.n none))
    | some err =>
      if err ≠ Err.EOF then (s1, some (Outcome.ret rd.n (some err)))
      else if env.continuable = false then (s1, some (Outcome.ret rd.n (some err)))
      else
        match errorChecks env s1.r s1.w err with
        | (some e, w2, evs) =>
          ({ s1 with w := w2, trace := s1.trace ++ evs }, some (Outcome.ret rd.n (some e)))
        | (none, w2, evs) =>
          if rd.n < 0 ∨ rd.n > (s1.buf.length : Int) then
            ({ s1 with w := w2, trace := s1.trace ++ evs }, some Outcome.indexError)
          else if (s1.buf.drop rd.n.toNat).length = 0 then
            ({ s1 with w := w2, pre := s1.pre ++ s1.buf.take rd.n.toNat,
                       buf := s1.buf.drop rd.n.toNat, trace := s1.trace ++ evs },
              some (Outcome.ret rd.n none))
          else
            let rw := wait env s1.r w2
            ({ r := rw.1, w := rw.2, pre := s1.pre ++ s1.buf.take rd.n.toNat,
               buf := s1.buf.drop rd.n.toNat,
               trace := s1.trace ++ evs ++ [Event.sleep s1.r.backoff] }, none)

/-- The `for` loop of `Read`, at most `fuel` iterations. -/
def loop {W : Type} (env : Env W) : Nat → St W → St W × Option Outcome
  | 0, st => (st, none)
  | fuel + 1, st =>
    match step env st with
    | (st1, some o) => (st1, some o)
    | (st1, none) => loop env fuel st1

/-- The embedding of `Read(buf)`: the loop started on the whole buffer. -/
def Read {W : Type} (env : Env W) (fuel : Nat) (r : LogFileReader) (w : W) (buf : List Byte) :
    St W × Option Outcome :=
  loop env fuel { r := r, w := w, pre := [], buf := buf, trace := [] }

/-- The caller's buffer as the call leaves it. -/
def St.buffer {W : Type} (st : St W) : List Byte := st.pre ++ st.buf

/-- The sleeps of a trace, in order. -/
def sleeps : List Event → List Int
  | [] => []
  | Event.sleep d :: es => d :: sleeps es
  | _ :: es => sleeps es

/-- The bytes the source produced over the reads of a trace, in order. -/
def produced : List Event → List Byte
  | [] => []
  | Event.read _ _ bytes :: es => bytes ++ produced es
  | _ :: es => produced es

/-- The number of underlying reads of a trace. -/
def readCount : List Event → Nat
  | [] => 0
  | Event.read _ _ _ :: es => readCount es + 1
  | _ :: es => readCount es

/-- The errors the source reads of a trace reported, in order. -/
def readErrs : List Event → List (Option Err)
  | [] => []
  | Event.read _ e _ :: es => e :: readErrs es
  | _ :: es => readErrs es

/-- The error of the last source read of a trace, if it has one. -/
def lastReadErr (tr : List Event) : Option (Option Err) := (readErrs tr).getLast?

/-- The bytes the reads of a trace counted into the offset: the sum of the
positive counts. -/
def bytesRead : List Event → Int
  | [] => 0
  | Event.read n _ _ :: es => (if n > 0 then n else 0) + bytesRead es
  | _ :: es => bytesRead es

/-- An event of the diagnostics: a source stat, an identity comparison or a
path stat. -/
def Event.isCheck : Event → Bool
  | Event.stat => true
  | Event.sameFile => true
  | Event.pathStat => true
  | _ => false

/-! ## A scripted world, for concrete runs -/

/-- A world that replays a script: the results of the successive source reads
and stats, a clock advanced by sleeping, a cancellation time, and what the
path looks like on disk. -/
structure Script where
  reads : List (Int × Option Err × List Byte)
  stats : List (Except Err FileInfo)
  clock : Int
  cancelAt : Option Int
  same : Bool
  pathErr : Option Err
  seekPos : Except Err Int

/-- The environment over a scripted world; a source with an exhausted script
reports `(0, io.EOF)`, an exhausted stat script a large file. -/
def scriptEnv (continuable seekable : Bool) : Env Script where
  done := fun w => match w.cancelAt with
    | some t => decide (t ≤ w.clock)
    | none => false
  fsRead := fun w _ => match w.reads with
    | [] => { n := 0, err := some Err.EOF, data := [], w := w }
    | (n, e, d) :: rest => { n := n, err := e, data := d, w := { w with reads := rest } }
  fsStat := fun w => match w.stats with
    | [] => (.ok { size := 1000000, ident := 1 }, w)
    | s :: rest => (s, { w with stats := rest })
  continuable := continuable
  seeker := if seekable then some (fun w => (w.seekPos, w)) else none
  isSameFile := fun w _ => (w.same, w)
  osStat := fun w => (w.pathErr, w)
  now := fun w => w.clock
  sleep := fun w d => { w with clock := w.clock + max d 0 }

/-! ## Recording what `time.Sleep` receives -/

/-- The environment `env` over worlds that also keep the list of the durations
handed to `time.Sleep`, in call order.  Every call acts on the world as it does
in `env`; `sleep` appends its argument to the list. -/
def recordSleeps {W : Type} (env : Env W) : Env (W × List Int) where
  done := fun s => env.done s.1
  fsRead := fun s b =>
    { n := (env.fsRead s.1 b).n, err := (env.fsRead s.1 b).err, data := (env.fsRead s.1 b).data,
      w := ((env.fsRead s.1 b).w, s.2) }
  fsStat := fun s => ((env.fsStat s.1).1, ((env.fsStat s.1).2, s.2))
  continuable := env.continuable
  seeker := env.seeker.map (fun seek s => ((seek s.1).1, ((seek s.1).2, s.2)))
  isSameFile := fun s info => ((env.isSameFile s.1 info).1, ((env.isSameFile s.1 info).2, s.2))
  osStat := fun s => ((env.osStat s.1).1, ((env.osStat s.1).2, s.2))
  now := fun s => env.now s.1
  sleep := fun s d => (env.sleep s.1 d, s.2 ++ [d])

/-- The number of retries of a loop run: the iterations, among the first `fuel`,
after which the loop went round again instead of returning. -/
def retries {W : Type} (env : Env W) : Nat → St W → Nat
  | 0, _ => 0
  | fuel + 1, st =>
    match step env st with
    | (_, some _) => 0
    | (st1, none) => retries env fuel st1 + 1

/-! ## Specification-level definitions -/

/-- The wait before retry `i + 1` as the specification words it,
`min (b * f ^ i) m`, for the first `k` retries. -/
def backoffSchedule (b f m : Int) (k : Nat) : List Int :=
  (List.range k).map (fun i => min (b * f ^ i) m)

/-- First-match-wins evaluation of an ordered list of guard/signal pairs. -/
def firstMatch : List (Bool × Err) → Option Err
  | [] => none
  | (g, e) :: rest => if g = true then some e else firstMatch rest

/-- The end-of-stream diagnostics as the specification words them: an ordered
list of guard/signal pairs, first match wins.  The path is statted in the world
the identity comparison leaves when the rename policy is on, else in the world
the source stat leaves. -/
def errorChecksSpec {W : Type} (env : Env W) (r : LogFileReader) (w : W) : Option Err :=
  let s := env.fsStat w
  match s.1 with
  | .error statErr => firstMatch [(r.config.CloseEOF, Err.EOF), (true, statErr)]
  | .ok info =>
    let same := env.isSameFile s.2 info
    let w2 := if r.config.CloseRenamed = true then same.2 else s.2
    firstMatch
      [ (r.config.CloseEOF, Err.EOF),
        (decide (info.size < r.offset), Err.ErrFileTruncate),
        (decide (timeSince (env.now s.2) r.lastTimeRead > r.config.CloseInactive),
          Err.ErrInactive),
        (r.config.CloseRenamed && !same.1, Err.ErrRenamed),
        (r.config.CloseRemoved && (env.osStat w2).1.isSome, Err.ErrRemoved) ]

/-- Reader states reachable under a configuration: the reader `NewLogFileReader`
returns, and the reader after any loop iteration of `Read` (so after any wait
and after any return) started from a reachable reader, in any world and on any
buffer. -/
inductive Reachable {W : Type} (env : Env W) (config : LogFileReaderConfig) :
    LogFileReader → Prop where
  | init (w w1 : W) (r : LogFileReader) :
      NewLogFileReader env config w = (.ok r, w1) → Reachable env config r
  | iter (st : St W) : Reachable env config st.r → Reachable env config (step env st).1.r

/-! ## Concrete inputs -/

/-- Backoff 1, cap 8, factor 2, inactivity threshold 100, no close policy. -/
def cfgPlain : LogFileReaderConfig :=
  { Backoff := 1, MaxBackoff := 8, BackoffFactor := 2, CloseEOF := false,
    CloseInactive := 100, CloseRenamed := false, CloseRemoved := false }

/-- A fresh reader at offset 0 under `cfg`. -/
def readerAt0 (cfg : LogFileReaderConfig) : LogFileReader :=
  { offset := 0, config := cfg, lastTimeRead := 0, backoff := cfg.Backoff }

/-- A scripted world with the given source reads, nothing else happening. -/
def worldOf (reads : List (Int × Option Err × List Byte)) : Script :=
  { reads := reads, stats := [], clock := 0, cancelAt := none, same := true,
    pathErr := none, seekPos := .ok 0 }

/-- A source that hands out 3 bytes together with end-of-stream, then 4 more
bytes without error. -/
def worldPartialEOF : Script :=
  worldOf [(3, some Err.EOF, [1, 2, 3]), (4, none, [4, 5, 6, 7])]

/-- A source that hands out 3 bytes together with end-of-stream, with the
cancellation signal set once the clock reaches 1. -/
def worldCancelled : Script :=
  { worldOf [(3, some Err.EOF, [1, 2, 3])] with cancelAt := some 1 }

/-- A caller buffer of ten zero bytes. -/
def buf10 : List Byte := List.replicate 10 0

/-- Backoff 2, cap 10, factor 3, inactivity threshold 1000, no close policy. -/
def cfgSlow : LogFileReaderConfig :=
  { Backoff := 2, MaxBackoff := 10, BackoffFactor := 3, CloseEOF := false,
    CloseInactive := 1000, CloseRenamed := false, CloseRemoved := false }

/-- A configuration whose base backoff 10 lies above its cap 5, factor 2. -/
def cfgInverted : LogFileReaderConfig :=
  { Backoff := 10, MaxBackoff := 5, BackoffFactor := 2, CloseEOF := false,
    CloseInactive := 1000, CloseRenamed := false, CloseRemoved := false }

/-- A source at end-of-stream for four polls, then handing out one byte. -/
def worldFourEOF : Script :=
  worldOf [(0, some Err.EOF, []), (0, some Err.EOF, []), (0, some Err.EOF, []),
    (0, some Err.EOF, []), (1, none, [9])]

/-- A source at end-of-stream for one poll, then handing out one byte. -/
def worldOneEOF : Script :=
  worldOf [(0, some Err.EOF, []), (1, none, [9])]

/-- The source of `worldPartialEOF` with the cancellation signal already set. -/
def worldCancelledAtEntry : Script :=
  { worldPartialEOF with cancelAt := some 0 }

/-- Every close policy on but close-on-EOF: backoff 1, cap 8, factor 2,
inactivity threshold 100. -/
def cfgClosing : LogFileReaderConfig :=
  { Backoff := 1, MaxBackoff := 8, BackoffFactor := 2, CloseEOF := false,
    CloseInactive := 100, CloseRenamed := true, CloseRemoved := true }

/-- A reader at offset 10 that last read at time 0. -/
def readerAt10 (cfg : LogFileReaderConfig) : LogFileReader :=
  { offset := 10, config := cfg, lastTimeRead := 0, backoff := cfg.Backoff }

/-- At time 5000 the source is at end-of-stream, its stat reports size 5, and
the path is gone from the disk: truncated, stale, renamed and removed at once. -/
def worldTruncatedStale : Script :=
  { reads := [(0, some Err.EOF, [])], stats := [.ok { size := 5, ident := 1 }], clock := 5000,
    cancelAt := none, same := false, pathErr := some (Err.other 2), seekPos := .ok 10 }

/-- A source that hands out 2 bytes together with end-of-stream. -/
def worldTwoThenEOF : Script :=
  worldOf [(2, some Err.EOF, [7, 8])]

/-- A source whose read hands out 2 bytes together with an I/O error. -/
def worldReadFails : Script :=
  worldOf [(2, some (Err.other 5), [7, 8])]

/-- A scripted continuable source whose stat always succeeds. -/
def steadyEnv : Env Script :=
  { scriptEnv true false with fsStat := fun w => (.ok { size := 1000000, ident := 1 }, w) }

/-- The scenario source: 10 bytes without error, end-of-stream on three polls,
then 5 bytes without error. -/
def worldScenario : Script :=
  worldOf [(10, none, [1, 2, 3, 4, 5, 6, 7, 8, 9, 10]), (0, some Err.EOF, []),
    (0, some Err.EOF, []), (0, some Err.EOF, []), (5, none, [11, 12, 13, 14, 15])]

/-- A reader at offset `off` under `cfg`, backoff at the base, last read at 0. -/
def readerAt (cfg : LogFileReaderConfig) (off : Int) : LogFileReader :=
  { offset := off, config := cfg, lastTimeRead := 0, backoff := cfg.Backoff }

/-- A scripted continuable source that keeps the `io.Reader` contract whatever
the script says: the count it reports is clamped to `0 <= n <= len(buf)`. -/
def tidyEnv : Env Script :=
  { scriptEnv true false with
    fsRead := fun w b => match w.reads with
      | [] => { n := 0, err := some Err.EOF, data := [], w := w }
      | (n, e, d) :: rest =>
        { n := max 0 (min n b.length), err := e, data := d, w := { w with reads := rest } } }

/-- A source at end-of-stream for one poll, then handing out 10 bytes together
with end-of-stream. -/
def worldFillAtEOF : Script :=
  worldOf [(0, some Err.EOF, []), (10, some Err.EOF, [1, 2, 3, 4, 5, 6, 7, 8, 9, 10])]

/-- A world whose source cannot tell its current position. -/
def worldSeekFails : Script :=
  { worldOf [] with seekPos := .error (Err.other 7) }

/-- A source that hands out 4 bytes, then reports a count of -3 without error. -/
def worldNegativeCount : Script :=
  worldOf [(4, some Err.EOF, [1, 2, 3, 4]), (-3, none, [])]

/-- Close-on-EOF on: backoff 1, cap 8, factor 2, inactivity threshold 100. -/
def cfgCloseEOF : LogFileReaderConfig :=
  { Backoff := 1, MaxBackoff := 8, BackoffFactor := 2, CloseEOF := true,
    CloseInactive := 100, CloseRenamed := true, CloseRemoved := true }

/-- A source that hands out 3 bytes without error (fewer than the buffer holds). -/
def worldThreeBytes : Script :=
  worldOf [(3, none, [1, 2, 3])]

/-- A source that fills a 10-byte buffer while reporting end-of-stream. -/
def worldFullAtEOF : Script :=
  worldOf [(10, some Err.EOF, [1, 2, 3, 4, 5, 6, 7, 8, 9, 10])]

/-- A scripted continuable source whose identity comparison reports a mismatch
whenever the path cannot be statted, and otherwise what the script says. -/
def coherentEnv : Env Script :=
  { scriptEnv true false with isSameFile := fun w _ => (w.same && w.pathErr.isNone, w) }

/-- At time 50 the source stat reports size 100 and the path is gone from the
disk. -/
def worldPathGone : Script :=
  { reads := [], stats := [.ok { size := 100, ident := 1 }], clock := 50, cancelAt := none,
    same := true, pathErr := some (Err.other 2), seekPos := .ok 10 }

/-- The path is gone and the source stat fails with the `ErrRemoved` value. -/
def worldStatRemoved : Script :=
  { worldPathGone with stats := [.error Err.ErrRemoved] }

/-- The first call of the scenario: `Read` on a reader at offset `off` with the
configuration `cfgPlain`, the source `worldScenario` and the buffer `buf1`. -/
def scenarioFirst (buf1 : List Byte) (off : Int) (fuel : Nat) : St Script × Option Outcome :=
  Read (scriptEnv true false) (fuel + 1) (readerAt cfgPlain off) worldScenario buf1

/-- The second call of the scenario, `fuel2` iterations of it: `Read` on the
reader and the world the first call left, with the buffer `buf2`. -/
def scenarioSecond (buf1 buf2 : List Byte) (off : Int) (fuel fuel2 : Nat) :
    St Script × Option Outcome :=
  Read (scriptEnv true false) fuel2 (scenarioFirst buf1 off fuel).1.r
    (scenarioFirst buf1 off fuel).1.w buf2

/-- The second call of the scenario with the durations handed to `time.Sleep`
recorded. -/
def scenarioSecondRecorded (buf1 buf2 : List Byte) (off : Int) (fuel fuel2 : Nat) :
    St (Script × List Int) × Option Outcome :=
  Read (recordSleeps (scriptEnv true false)) fuel2 (scenarioFirst buf1 off fuel).1.r
    ((scenarioFirst buf1 off fuel).1.w, []) buf2

/-! ## Theorems -/

/-! ### Arithmetic and trace lemmas -/

theorem wrapInt64_of_range (x : Int) (h0 : minInt64 ≤ x) (h1 : x ≤ maxInt64) :
    wrapInt64 x = x := by
  unfold wrapInt64
  unfold minInt64 at h0
  unfold maxInt64 at h1
  rw [Int.emod_eq_of_lt (by omega) (by omega)]
  omega

theorem sleeps_append (a b : List Event) : sleeps (a ++ b) = sleeps a ++ sleeps b := by
  induction a with
  | nil => rfl
  | cons e es ih => cases e <;> simp [sleeps, ih]

theorem backoffSchedule_succ (b f m : Int) (k : Nat) :
    backoffSchedule b f m (k + 1) = backoffSchedule b f m k ++ [min (b * f ^ k) m] := by
  simp [backoffSchedule, List.range_succ]

theorem backoffSchedule_length (b f m : Int) (k : Nat) :
    (backoffSchedule b f m k).length = k := by
  simp [backoffSchedule]

theorem noteRead_config (r : LogFileReader) (n now : Int) :
    (noteRead r n now).config = r.config := by
  unfold noteRead
  split <;> rfl

theorem noteRead_backoff (r : LogFileReader) (n now : Int) :
    (noteRead r n now).backoff = r.backoff := by
  unfold noteRead
  split <;> rfl

theorem wait_config {W : Type} (env : Env W) (r : LogFileReader) (w : W) :
    (wait env r w).1.config = r.config := by
  unfold wait
  simp only
  split_ifs <;> rfl

theorem removedCheck_sleeps {W : Type} (env : Env W) (r : LogFileReader) (w : W)
    (evs : List Event) (h : sleeps evs = []) : sleeps (removedCheck env r w evs).2.2 = [] := by
  unfold removedCheck
  split
  · split <;> simp [sleeps_append, h, sleeps]
  · exact h

theorem errorChecks_sleeps {W : Type} (env : Env W) (r : LogFileReader) (w : W) (err : Err) :
    sleeps (errorChecks env r w err).2.2 = [] := by
  unfold errorChecks
  split
  · rfl
  · split
    · rfl
    · split_ifs
      · rfl
      · rfl
      · split
        · rfl
        · exact removedCheck_sleeps env r _ _ rfl
      · exact removedCheck_sleeps env r _ _ rfl

/-- C1 (the code at the failing input): a continuable source hands out 3 bytes
together with end-of-stream and then 4 bytes without error; the single `Read`
call returns `(4, nil)` while the offset has advanced by 7.  With the
cancellation signal raised during the wait, `Read` returns `(0, nil)` while the
offset has advanced by 3. -/
theorem C1_offset_ahead_of_returned_count :
    (Read (scriptEnv true false) 5 (readerAt0 cfgPlain) worldPartialEOF buf10).2
        = some (Outcome.ret 4 none)
      ∧ (Read (scriptEnv true false) 5 (readerAt0 cfgPlain) worldPartialEOF buf10).1.r.offset
        = (readerAt0 cfgPlain).offset + 7
      ∧ (Read (scriptEnv true false) 5 (readerAt0 cfgPlain) worldCancelled buf10).2
        = some (Outcome.ret 0 none)
      ∧ (Read (scriptEnv true false) 5 (readerAt0 cfgPlain) worldCancelled buf10).1.r.offset
        = (readerAt0 cfgPlain).offset + 3 := by
  decide

/-- C2 (the code at the failing input): the source respects
`0 <= n <= len(buffer)` and produces the bytes 1..7 over the two underlying
reads of one `Read` call; the call returns `n = 4`, so the caller is given the
bytes 1..4 and the bytes 5, 6, 7 are never delivered. -/
theorem C2_delivered_bytes_miss_produced :
    (Read (scriptEnv true false) 5 (readerAt0 cfgPlain) worldPartialEOF buf10).2
        = some (Outcome.ret 4 none)
      ∧ (Read (scriptEnv true false) 5 (readerAt0 cfgPlain) worldPartialEOF buf10).1.buffer.take 4
        = [1, 2, 3, 4]
      ∧ produced (Read (scriptEnv true false) 5 (readerAt0 cfgPlain) worldPartialEOF buf10).1.trace
        = [1, 2, 3, 4, 5, 6, 7]
      ∧ (Read (scriptEnv true false) 5 (readerAt0 cfgPlain) worldPartialEOF buf10).1.w.reads
        = [] := by
  decide

/-! ### One loop iteration, case by case -/

theorem step_done {W : Type} (env : Env W) (st : St W) (hd : env.done st.w = true) :
    step env st = (st, some (Outcome.ret 0 none)) := by
  simp [step, hd]

theorem step_ok {W : Type} (env : Env W) (st : St W) (hd : env.done st.w = false)
    (he : (env.fsRead st.w st.buf).err = none) :
    step env st
      = ({ afterRead env st with
            r := { (afterRead env st).r with backoff := (afterRead env st).r.config.Backoff } },
          some (Outcome.ret (env.fsRead st.w st.buf).n none)) := by
  simp [step, hd, he]

theorem step_fatal {W : Type} (env : Env W) (st : St W) (e : Err)
    (hd : env.done st.w = false) (he : (env.fsRead st.w st.buf).err = some e)
    (hne : e ≠ Err.EOF) :
    step env st = (afterRead env st, some (Outcome.ret (env.fsRead st.w st.buf).n (some e))) := by
  simp [step, hd, he, hne]

theorem step_noncontinuable {W : Type} (env : Env W) (st : St W)
    (hd : env.done st.w = false) (he : (env.fsRead st.w st.buf).err = some Err.EOF)
    (hc : env.continuable = false) :
    step env st
      = (afterRead env st, some (Outcome.ret (env.fsRead st.w st.buf).n (some Err.EOF))) := by
  simp [step, hd, he, hc]

theorem step_terminal {W : Type} (env : Env W) (st : St W) (e : Err) (w2 : W)
    (evs : List Event)
    (hd : env.done st.w = false) (he : (env.fsRead st.w st.buf).err = some Err.EOF)
    (hc : env.continuable = true)
    (hchk : errorChecks env (afterRead env st).r (afterRead env st).w Err.EOF = (some e, w2, evs)) :
    step env st
      = ({ afterRead env st with w := w2, trace := (afterRead env st).trace ++ evs },
          some (Outcome.ret (env.fsRead st.w st.buf).n (some e))) := by
  simp [step, hd, he, hc, hchk]

theorem step_indexError {W : Type} (env : Env W) (st : St W) (w2 : W) (evs : List Event)
    (hd : env.done st.w = false) (he : (env.fsRead st.w st.buf).err = some Err.EOF)
    (hc : env.continuable = true)
    (hchk : errorChecks env (afterRead env st).r (afterRead env st).w Err.EOF = (none, w2, evs))
    (hn : (env.fsRead st.w st.buf).n < 0
      ∨ (env.fsRead st.w st.buf).n > ((afterRead env st).buf.length : Int)) :
    step env st
      = ({ afterRead env st with w := w2, trace := (afterRead env st).trace ++ evs },
          some Outcome.indexError) := by
  simp [step, hd, he, hc, hchk, hn]

theorem step_full {W : Type} (env : Env W) (st : St W) (w2 : W) (evs : List Event)
    (hd : env.done st.w = false) (he : (env.fsRead st.w st.buf).err = some Err.EOF)
    (hc : env.continuable = true)
    (hchk : errorChecks env (afterRead env st).r (afterRead env st).w Err.EOF = (none, w2, evs))
    (hn : ¬ ((env.fsRead st.w st.buf).n < 0
      ∨ (env.fsRead st.w st.buf).n > ((afterRead env st).buf.length : Int)))
    (hl : ((afterRead env st).buf.drop (env.fsRead st.w st.buf).n.toNat).length = 0) :
    step env st
      = ({ afterRead env st with
            w := w2,
            pre := (afterRead env st).pre
              ++ (afterRead env st).buf.take (env.fsRead st.w st.buf).n.toNat,
            buf := (afterRead env st).buf.drop (env.fsRead st.w st.buf).n.toNat,
            trace := (afterRead env st).trace ++ evs },
          some (Outcome.ret (env.fsRead st.w st.buf).n none)) := by
  unfold step
  rw [if_neg (by simp [hd])]
  simp only [he, hchk]
  rw [if_neg (by simp), if_neg (by simp [hc]), if_neg hn, if_pos hl]

theorem step_wait {W : Type} (env : Env W) (st : St W) (w2 : W) (evs : List Event)
    (hd : env.done st.w = false) (he : (env.fsRead st.w st.buf).err = some Err.EOF)
    (hc : env.continuable = true)
    (hchk : errorChecks env (afterRead env st).r (afterRead env st).w Err.EOF = (none, w2, evs))
    (hn : ¬ ((env.fsRead st.w st.buf).n < 0
      ∨ (env.fsRead st.w st.buf).n > ((afterRead env st).buf.length : Int)))
    (hl : ¬ ((afterRead env st).buf.drop (env.fsRead st.w st.buf).n.toNat).length = 0) :
    step env st
      = ({ r := (wait env (afterRead env st).r w2).1, w := (wait env (afterRead env st).r w2).2,
           pre := (afterRead env st).pre
             ++ (afterRead env st).buf.take (env.fsRead st.w st.buf).n.toNat,
           buf := (afterRead env st).buf.drop (env.fsRead st.w st.buf).n.toNat,
           trace := (afterRead env st).trace ++ evs ++ [Event.sleep (afterRead env st).r.backoff] },
          none) := by
  unfold step
  rw [if_neg (by simp [hd])]
  simp only [he, hchk]
  rw [if_neg (by simp), if_neg (by simp [hc]), if_neg hn, if_neg hl]

/-- Case analysis of one loop iteration: a property of `step env st` follows
from the property on each of the eight ways through the loop body. -/
theorem step_elim {W : Type} (env : Env W) (st : St W) (P : St W × Option Outcome → Prop)
    (hdone : env.done st.w = true → P (st, some (Outcome.ret 0 none)))
    (hok : env.done st.w = false → (env.fsRead st.w st.buf).err = none →
      P ({ afterRead env st with
            r := { (afterRead env st).r with backoff := (afterRead env st).r.config.Backoff } },
          some (Outcome.ret (env.fsRead st.w st.buf).n none)))
    (hfatal : ∀ e, env.done st.w = false → (env.fsRead st.w st.buf).err = some e →
      e ≠ Err.EOF →
      P (afterRead env st, some (Outcome.ret (env.fsRead st.w st.buf).n (some e))))
    (hnoncont : env.done st.w = false → (env.fsRead st.w st.buf).err = some Err.EOF →
      env.continuable = false →
      P (afterRead env st, some (Outcome.ret (env.fsRead st.w st.buf).n (some Err.EOF))))
    (hterm : ∀ e w2 evs, env.done st.w = false →
      (env.fsRead st.w st.buf).err = some Err.EOF → env.continuable = true →
      errorChecks env (afterRead env st).r (afterRead env st).w Err.EOF = (some e, w2, evs) →
      P ({ afterRead env st with w := w2, trace := (afterRead env st).trace ++ evs },
          some (Outcome.ret (env.fsRead st.w st.buf).n (some e))))
    (hindex : ∀ w2 evs, env.done st.w = false →
      (env.fsRead st.w st.buf).err = some Err.EOF → env.continuable = true →
      errorChecks env (afterRead env st).r (afterRead env st).w Err.EOF = (none, w2, evs) →
      ((env.fsRead st.w st.buf).n < 0
        ∨ (env.fsRead st.w st.buf).n > ((afterRead env st).buf.length : Int)) →
      P ({ afterRead env st with w := w2, trace := (afterRead env st).trace ++ evs },
          some Outcome.indexError))
    (hfull : ∀ w2 evs, env.done st.w = false →
      (env.fsRead st.w st.buf).err = some Err.EOF → env.continuable = true →
      errorChecks env (afterRead env st).r (afterRead env st).w Err.EOF = (none, w2, evs) →
      ¬ ((env.fsRead st.w st.buf).n < 0
        ∨ (env.fsRead st.w st.buf).n > ((afterRead env st).buf.length : Int)) →
      ((afterRead env st).buf.drop (env.fsRead st.w st.buf).n.toNat).length = 0 →
      P ({ afterRead env st with
            w := w2,
            pre := (afterRead env st).pre
              ++ (afterRead env st).buf.take (env.fsRead st.w st.buf).n.toNat,
            buf := (afterRead env st).buf.drop (env.fsRead st.w st.buf).n.toNat,
            trace := (afterRead env st).trace ++ evs },
          some (Outcome.ret (env.fsRead st.w st.buf).n none)))
    (hwait : ∀ w2 evs, env.done st.w = false →
      (env.fsRead st.w st.buf).err = some Err.EOF → env.continuable = true →
      errorChecks env (afterRead env st).r (afterRead env st).w Err.EOF = (none, w2, evs) →
      ¬ ((env.fsRead st.w st.buf).n < 0
        ∨ (env.fsRead st.w st.buf).n > ((afterRead env st).buf.length : Int)) →
      ¬ ((afterRead env st).buf.drop (env.fsRead st.w st.buf).n.toNat).length = 0 →
      P ({ r := (wait env (afterRead env st).r w2).1, w := (wait env (afterRead env st).r w2).2,
           pre := (afterRead env st).pre
             ++ (afterRead env st).buf.take (env.fsRead st.w st.buf).n.toNat,
           buf := (afterRead env st).buf.drop (env.fsRead st.w st.buf).n.toNat,
           trace := (afterRead env st).trace ++ evs
             ++ [Event.sleep (afterRead env st).r.backoff] },
          none)) :
    P (step env st) := by
  by_cases hd : env.done st.w = true
  · rw [step_done env st hd]
    exact hdone hd
  · have hd0 : env.done st.w = false := by simpa using hd
    cases he : (env.fsRead st.w st.buf).err with
    | none =>
      rw [step_ok env st hd0 he]
      exact hok hd0 he
    | some e =>
      by_cases hne : e = Err.EOF
      · subst hne
        by_cases hc : env.continuable = true
        · rcases hchk : errorChecks env (afterRead env st).r (afterRead env st).w Err.EOF with
            ⟨oe, w2, evs⟩
          cases oe with
          | some e2 =>
            rw [step_terminal env st e2 w2 evs hd0 he hc hchk]
            exact hterm e2 w2 evs hd0 he hc hchk
          | none =>
            by_cases hn : (env.fsRead st.w st.buf).n < 0
                ∨ (env.fsRead st.w st.buf).n > ((afterRead env st).buf.length : Int)
            · rw [step_indexError env st w2 evs hd0 he hc hchk hn]
              exact hindex w2 evs hd0 he hc hchk hn
            · by_cases hl :
                ((afterRead env st).buf.drop (env.fsRead st.w st.buf).n.toNat).length = 0
              · rw [step_full env st w2 evs hd0 he hc hchk hn hl]
                exact hfull w2 evs hd0 he hc hchk hn hl
              · rw [step_wait env st w2 evs hd0 he hc hchk hn hl]
                exact hwait w2 evs hd0 he hc hchk hn hl
        · have hc0 : env.continuable = false := by simpa using hc
          rw [step_noncontinuable env st hd0 he hc0]
          exact hnoncont hd0 he hc0
      · rw [step_fatal env st e hd0 he hne]
        exact hfatal e hd0 he hne

/-! ### Backoff growth -/

theorem afterRead_config {W : Type} (env : Env W) (st : St W) :
    (afterRead env st).r.config = st.r.config := by
  simp [afterRead, noteRead_config]

theorem afterRead_backoff {W : Type} (env : Env W) (st : St W) :
    (afterRead env st).r.backoff = st.r.backoff := by
  simp [afterRead, noteRead_backoff]

theorem afterRead_sleeps {W : Type} (env : Env W) (st : St W) :
    sleeps (afterRead env st).trace = sleeps st.trace := by
  simp [afterRead, sleeps_append, sleeps]

/-- One `wait` moves the backoff from `min (b * f ^ j) m` to
`min (b * f ^ (j + 1)) m`, when `0 ≤ b ≤ m`, `1 ≤ f` and `m * f` fits `int64`. -/
theorem wait_backoff_next {W : Type} (env : Env W) (r : LogFileReader) (w : W) (j : Nat)
    (h0 : 0 ≤ r.config.Backoff) (hf : 1 ≤ r.config.BackoffFactor)
    (hov : r.config.MaxBackoff * r.config.BackoffFactor ≤ maxInt64)
    (hb : r.backoff = min (r.config.Backoff * r.config.BackoffFactor ^ j) r.config.MaxBackoff) :
    (wait env r w).1.backoff
      = min (r.config.Backoff * r.config.BackoffFactor ^ (j + 1)) r.config.MaxBackoff := by
  have hx0 : 0 ≤ r.config.Backoff * r.config.BackoffFactor ^ j :=
    mul_nonneg h0 (pow_nonneg (by omega) _)
  have hsucc : r.config.Backoff * r.config.BackoffFactor ^ (j + 1)
      = r.config.Backoff * r.config.BackoffFactor ^ j * r.config.BackoffFactor := by
    rw [pow_succ, mul_assoc]
  have hgrow : r.config.Backoff * r.config.BackoffFactor ^ j
      ≤ r.config.Backoff * r.config.BackoffFactor ^ j * r.config.BackoffFactor := by
    have := mul_le_mul_of_nonneg_left hf hx0
    simpa using this
  rw [hsucc]
  unfold wait
  simp only
  by_cases h1 : r.backoff < r.config.MaxBackoff
  · have hlt : r.config.Backoff * r.config.BackoffFactor ^ j < r.config.MaxBackoff := by
      rw [hb] at h1
      by_contra hcon
      rw [min_eq_right (not_lt.mp hcon)] at h1
      exact lt_irrefl _ h1
    have hbe : r.backoff = r.config.Backoff * r.config.BackoffFactor ^ j := by
      rw [hb, min_eq_left hlt.le]
    have hle : r.config.Backoff * r.config.BackoffFactor ^ j * r.config.BackoffFactor
        ≤ r.config.MaxBackoff * r.config.BackoffFactor :=
      mul_le_mul_of_nonneg_right hlt.le (by omega)
    have hwrap : wrapInt64 (r.backoff * r.config.BackoffFactor)
        = r.config.Backoff * r.config.BackoffFactor ^ j * r.config.BackoffFactor := by
      rw [hbe]
      apply wrapInt64_of_range
      · unfold minInt64
        have : 0 ≤ r.config.Backoff * r.config.BackoffFactor ^ j * r.config.BackoffFactor :=
          mul_nonneg hx0 (by omega)
        omega
      · exact le_trans hle hov
    rw [if_pos h1, hwrap]
    by_cases h2 : r.config.Backoff * r.config.BackoffFactor ^ j * r.config.BackoffFactor
        > r.config.MaxBackoff
    · rw [if_pos h2, min_eq_right h2.le]
    · rw [if_neg h2, min_eq_left (not_lt.mp h2)]
  · rw [if_neg h1]
    have hge : r.config.MaxBackoff ≤ r.config.Backoff * r.config.BackoffFactor ^ j := by
      by_contra hcon
      rw [hb, min_eq_left (not_le.mp hcon).le] at h1
      exact h1 (not_le.mp hcon)
    rw [hb, min_eq_right hge, min_eq_right (le_trans hge hgrow)]

theorem errorChecks_sleeps_of_eq {W : Type} (env : Env W) (r : LogFileReader) (w w2 : W)
    (err : Err) (oe : Option Err) (evs : List Event)
    (h : errorChecks env r w err = (oe, w2, evs)) : sleeps evs = [] := by
  have hs := errorChecks_sleeps env r w err
  rw [h] at hs
  exact hs

/-- One iteration keeps the sleeps on the schedule: an iteration that goes on
has slept the `j + 1`-st scheduled wait and holds the next backoff; an
iteration that returns has not slept. -/
theorem step_schedule {W : Type} (env : Env W) (cfg : LogFileReaderConfig) (st : St W) (j : Nat)
    (h0 : 0 ≤ cfg.Backoff) (hf : 1 ≤ cfg.BackoffFactor)
    (hov : cfg.MaxBackoff * cfg.BackoffFactor ≤ maxInt64)
    (hcfg : st.r.config = cfg)
    (hb : st.r.backoff = min (cfg.Backoff * cfg.BackoffFactor ^ j) cfg.MaxBackoff)
    (hs : sleeps st.trace = backoffSchedule cfg.Backoff cfg.BackoffFactor cfg.MaxBackoff j) :
    ((step env st).2 = none →
        (step env st).1.r.config = cfg
        ∧ (step env st).1.r.backoff
            = min (cfg.Backoff * cfg.BackoffFactor ^ (j + 1)) cfg.MaxBackoff
        ∧ sleeps (step env st).1.trace
            = backoffSchedule cfg.Backoff cfg.BackoffFactor cfg.MaxBackoff (j + 1))
      ∧ ((step env st).2 ≠ none →
        sleeps (step env st).1.trace
          = backoffSchedule cfg.Backoff cfg.BackoffFactor cfg.MaxBackoff j) := by
  apply step_elim env st
    (fun res => (res.2 = none →
        res.1.r.config = cfg
        ∧ res.1.r.backoff = min (cfg.Backoff * cfg.BackoffFactor ^ (j + 1)) cfg.MaxBackoff
        ∧ sleeps res.1.trace
            = backoffSchedule cfg.Backoff cfg.BackoffFactor cfg.MaxBackoff (j + 1))
      ∧ (res.2 ≠ none →
        sleeps res.1.trace = backoffSchedule cfg.Backoff cfg.BackoffFactor cfg.MaxBackoff j))
  · intro _
    exact ⟨fun h => by simp at h, fun _ => hs⟩
  · intro _ _
    exact ⟨fun h => by simp at h, fun _ => by simpa [afterRead_sleeps] using hs⟩
  · intro e _ _ _
    exact ⟨fun h => by simp at h, fun _ => by simpa [afterRead_sleeps] using hs⟩
  · intro _ _ _
    exact ⟨fun h => by simp at h, fun _ => by simpa [afterRead_sleeps] using hs⟩
  · intro e w2 evs _ _ _ hchk
    have hev := errorChecks_sleeps_of_eq env _ _ _ _ _ _ hchk
    exact ⟨fun h => by simp at h,
      fun _ => by simpa [sleeps_append, afterRead_sleeps, hev] using hs⟩
  · intro w2 evs _ _ _ hchk _
    have hev := errorChecks_sleeps_of_eq env _ _ _ _ _ _ hchk
    exact ⟨fun h => by simp at h,
      fun _ => by simpa [sleeps_append, afterRead_sleeps, hev] using hs⟩
  · intro w2 evs _ _ _ hchk _ _
    have hev := errorChecks_sleeps_of_eq env _ _ _ _ _ _ hchk
    exact ⟨fun h => by simp at h,
      fun _ => by simpa [sleeps_append, afterRead_sleeps, hev] using hs⟩
  · intro w2 evs _ _ _ hchk _ _
    have hev := errorChecks_sleeps_of_eq env _ _ _ _ _ _ hchk
    have hc1 : (afterRead env st).r.config = cfg := by rw [afterRead_config, hcfg]
    refine ⟨fun _ => ⟨?_, ?_, ?_⟩, fun h => by simp at h⟩
    · simp only
      rw [wait_config, hc1]
    · simp only
      have hw := wait_backoff_next env (afterRead env st).r w2 j
        (by rw [hc1]; exact h0) (by rw [hc1]; exact hf) (by rw [hc1]; exact hov)
        (by rw [hc1, afterRead_backoff]; exact hb)
      rw [hc1] at hw
      exact hw
    · simp only
      rw [sleeps_append, sleeps_append, afterRead_sleeps, hev, hs, backoffSchedule_succ,
        afterRead_backoff, hb]
      simp [sleeps]

/-- The sleeps of a loop run started on the schedule stay on the schedule. -/
theorem loop_schedule {W : Type} (env : Env W) (cfg : LogFileReaderConfig)
    (h0 : 0 ≤ cfg.Backoff) (hf : 1 ≤ cfg.BackoffFactor)
    (hov : cfg.MaxBackoff * cfg.BackoffFactor ≤ maxInt64) :
    ∀ (fuel : Nat) (st : St W) (j : Nat), st.r.config = cfg →
      st.r.backoff = min (cfg.Backoff * cfg.BackoffFactor ^ j) cfg.MaxBackoff →
      sleeps st.trace = backoffSchedule cfg.Backoff cfg.BackoffFactor cfg.MaxBackoff j →
      ∃ k, sleeps (loop env fuel st).1.trace
        = backoffSchedule cfg.Backoff cfg.BackoffFactor cfg.MaxBackoff k := by
  intro fuel
  induction fuel with
  | zero =>
    intro st j _ _ hs
    exact ⟨j, hs⟩
  | succ fuel ih =>
    intro st j hcfg hb hs
    have hstep := step_schedule env cfg st j h0 hf hov hcfg hb hs
    unfold loop
    rcases hres : step env st with ⟨st1, o⟩
    rw [hres] at hstep
    cases o with
    | none =>
      obtain ⟨hc1, hb1, hs1⟩ := hstep.1 rfl
      exact ih st1 (j + 1) hc1 hb1 hs1
    | some out =>
      exact ⟨j, hstep.2 (by simp)⟩

/-! ### C4: the backoff stays between the base and the cap -/

/-- One `wait` keeps the backoff within `[b, m]`, when `0 ≤ b`, `1 ≤ f` and
`m * f` fits `int64`. -/
theorem wait_backoff_bounds {W : Type} (env : Env W) (r : LogFileReader) (w : W)
    (h0 : 0 ≤ r.config.Backoff) (hf : 1 ≤ r.config.BackoffFactor)
    (hov : r.config.MaxBackoff * r.config.BackoffFactor ≤ maxInt64)
    (hlo : r.config.Backoff ≤ r.backoff) (hhi : r.backoff ≤ r.config.MaxBackoff) :
    r.config.Backoff ≤ (wait env r w).1.backoff
      ∧ (wait env r w).1.backoff ≤ r.config.MaxBackoff := by
  unfold wait
  simp only
  by_cases h1 : r.backoff < r.config.MaxBackoff
  · rw [if_pos h1]
    have hr0 : 0 ≤ r.backoff := le_trans h0 hlo
    have hgrow : r.backoff ≤ r.backoff * r.config.BackoffFactor := by
      have := mul_le_mul_of_nonneg_left hf hr0
      simpa using this
    have hle : r.backoff * r.config.BackoffFactor
        ≤ r.config.MaxBackoff * r.config.BackoffFactor :=
      mul_le_mul_of_nonneg_right hhi (by omega)
    have hwrap : wrapInt64 (r.backoff * r.config.BackoffFactor)
        = r.backoff * r.config.BackoffFactor := by
      apply wrapInt64_of_range
      · unfold minInt64
        omega
      · exact le_trans hle hov
    rw [hwrap]
    by_cases h2 : r.backoff * r.config.BackoffFactor > r.config.MaxBackoff
    · rw [if_pos h2]
      exact ⟨le_trans hlo hhi, le_refl _⟩
    · rw [if_neg h2]
      exact ⟨le_trans hlo hgrow, not_lt.mp h2⟩
  · rw [if_neg h1]
    exact ⟨hlo, hhi⟩

/-- One loop iteration keeps the configuration and the backoff bounds. -/
theorem step_backoff_bounds {W : Type} (env : Env W) (cfg : LogFileReaderConfig) (st : St W)
    (h0 : 0 ≤ cfg.Backoff) (hbm : cfg.Backoff ≤ cfg.MaxBackoff) (hf : 1 ≤ cfg.BackoffFactor)
    (hov : cfg.MaxBackoff * cfg.BackoffFactor ≤ maxInt64)
    (hcfg : st.r.config = cfg) (hlo : cfg.Backoff ≤ st.r.backoff)
    (hhi : st.r.backoff ≤ cfg.MaxBackoff) :
    (step env st).1.r.config = cfg ∧ cfg.Backoff ≤ (step env st).1.r.backoff
      ∧ (step env st).1.r.backoff ≤ cfg.MaxBackoff := by
  have hc1 : (afterRead env st).r.config = cfg := by rw [afterRead_config, hcfg]
  have hb1 : (afterRead env st).r.backoff = st.r.backoff := afterRead_backoff env st
  apply step_elim env st
    (fun res => res.1.r.config = cfg ∧ cfg.Backoff ≤ res.1.r.backoff
      ∧ res.1.r.backoff ≤ cfg.MaxBackoff)
  · intro _
    exact ⟨hcfg, hlo, hhi⟩
  · intro _ _
    simp only
    rw [hc1]
    exact ⟨rfl, le_refl _, hbm⟩
  · intro e _ _ _
    simp only
    rw [hc1, hb1]
    exact ⟨rfl, hlo, hhi⟩
  · intro _ _ _
    simp only
    rw [hc1, hb1]
    exact ⟨rfl, hlo, hhi⟩
  · intro e w2 evs _ _ _ _
    simp only
    rw [hc1, hb1]
    exact ⟨rfl, hlo, hhi⟩
  · intro w2 evs _ _ _ _ _
    simp only
    rw [hc1, hb1]
    exact ⟨rfl, hlo, hhi⟩
  · intro w2 evs _ _ _ _ _ _
    simp only
    rw [hc1, hb1]
    exact ⟨rfl, hlo, hhi⟩
  · intro w2 evs _ _ _ _ _ _
    simp only
    have hw := wait_backoff_bounds env (afterRead env st).r w2
      (by rw [hc1]; exact h0) (by rw [hc1]; exact hf) (by rw [hc1]; exact hov)
      (by rw [hc1, hb1]; exact hlo) (by rw [hc1, hb1]; exact hhi)
    rw [hc1] at hw
    rw [wait_config, hc1]
    exact ⟨rfl, hw⟩

theorem NewLogFileReader_ok {W : Type} (env : Env W) (cfg : LogFileReaderConfig) (w w1 : W)
    (r : LogFileReader) (h : NewLogFileReader env cfg w = (.ok r, w1)) :
    r.config = cfg ∧ r.backoff = cfg.Backoff := by
  unfold NewLogFileReader at h
  split at h
  · split at h
    · simp at h
    · simp only [Prod.mk.injEq, Except.ok.injEq] at h
      rw [← h.1]
      exact ⟨rfl, rfl⟩
  · simp only [Prod.mk.injEq, Except.ok.injEq] at h
    rw [← h.1]
    exact ⟨rfl, rfl⟩

theorem reachable_inv {W : Type} (env : Env W) (cfg : LogFileReaderConfig)
    (h0 : 0 ≤ cfg.Backoff) (hbm : cfg.Backoff ≤ cfg.MaxBackoff) (hf : 1 ≤ cfg.BackoffFactor)
    (hov : cfg.MaxBackoff * cfg.BackoffFactor ≤ maxInt64)
    (r : LogFileReader) (hr : Reachable env cfg r) :
    r.config = cfg ∧ cfg.Backoff ≤ r.backoff ∧ r.backoff ≤ cfg.MaxBackoff := by
  induction hr with
  | init w w1 r h =>
    obtain ⟨hc, hb⟩ := NewLogFileReader_ok env cfg w w1 r h
    rw [hb]
    exact ⟨hc, le_refl _, hbm⟩
  | iter st _ ih =>
    exact step_backoff_bounds env cfg st h0 hbm hf hov ih.1 ih.2.1 ih.2.2

/-- C4 (amended): for every configuration with `0 <= Backoff <= MaxBackoff`,
growth factor `>= 1` and `MaxBackoff * BackoffFactor` within `int64`, in every
state reachable from `NewLogFileReader` by loop iterations of `Read` calls (the
waits included), `Backoff <= backoff <= MaxBackoff`. -/
theorem C4_backoff_within_bounds {W : Type} (env : Env W) (cfg : LogFileReaderConfig)
    (h0 : 0 ≤ cfg.Backoff) (hbm : cfg.Backoff ≤ cfg.MaxBackoff) (hf : 1 ≤ cfg.BackoffFactor)
    (hov : cfg.MaxBackoff * cfg.BackoffFactor ≤ maxInt64)
    (r : LogFileReader) (hr : Reachable env cfg r) :
    cfg.Backoff ≤ r.backoff ∧ r.backoff ≤ cfg.MaxBackoff :=
  (reachable_inv env cfg h0 hbm hf hov r hr).2

/-- C4 witness: the reader after the first loop iteration (an end-of-stream
poll followed by a wait) on a fresh reader with base 2, cap 10, factor 3. -/
theorem C4_backoff_within_bounds_witness :
    (step (scriptEnv true false)
        { r := readerAt0 cfgSlow, w := worldFourEOF, pre := [], buf := buf10,
          trace := [] }).1.r.backoff = 6
      ∧ cfgSlow.Backoff ≤ (step (scriptEnv true false)
        { r := readerAt0 cfgSlow, w := worldFourEOF, pre := [], buf := buf10,
          trace := [] }).1.r.backoff
      ∧ (step (scriptEnv true false)
        { r := readerAt0 cfgSlow, w := worldFourEOF, pre := [], buf := buf10,
          trace := [] }).1.r.backoff ≤ cfgSlow.MaxBackoff :=
  ⟨by decide,
    C4_backoff_within_bounds (scriptEnv true false) cfgSlow (by decide) (by decide) (by decide)
      (by decide) _
      (Reachable.iter
        { r := readerAt0 cfgSlow, w := worldFourEOF, pre := [], buf := buf10, trace := [] }
        (Reachable.init worldFourEOF worldFourEOF (readerAt0 cfgSlow) rfl))⟩

/-- C4 counterexample: with base 10, cap 5 and factor 2 (so the growth factor is
`>= 1`) the reader that `NewLogFileReader` returns has backoff 10, above the
cap. -/
theorem C4_counterexample_base_above_cap :
    1 ≤ cfgInverted.BackoffFactor
      ∧ Reachable (scriptEnv true false) cfgInverted (readerAt0 cfgInverted)
      ∧ ¬ (cfgInverted.Backoff ≤ (readerAt0 cfgInverted).backoff
          ∧ (readerAt0 cfgInverted).backoff ≤ cfgInverted.MaxBackoff) :=
  ⟨by decide, Reachable.init (worldOf []) (worldOf []) (readerAt0 cfgInverted) rfl, by decide⟩

/-! ### C5, C6: cancellation at entry, truncation -/

/-- C5: if the cancellation signal is set when `Read` is called, the call
returns `(0, nil)` in its first iteration with an empty trace (no source read,
no stat, no wait), and the reader (offset, lastTimeRead, backoff), the world
and the buffer are as they were. -/
theorem C5_cancelled_read_returns_at_once {W : Type} (env : Env W) (fuel : Nat)
    (r : LogFileReader) (w : W) (buf : List Byte) (hd : env.done w = true) :
    Read env (fuel + 1) r w buf
      = ({ r := r, w := w, pre := [], buf := buf, trace := [] }, some (Outcome.ret 0 none)) := by
  unfold Read loop
  rw [step_done env _ hd]

/-- C5 witness: a source with bytes ready, the signal set at entry. -/
theorem C5_cancelled_read_returns_at_once_witness :
    (scriptEnv true false).done worldCancelledAtEntry = true
      ∧ Read (scriptEnv true false) (4 + 1) (readerAt0 cfgPlain) worldCancelledAtEntry buf10
        = ({ r := readerAt0 cfgPlain, w := worldCancelledAtEntry, pre := [], buf := buf10,
             trace := [] }, some (Outcome.ret 0 none)) :=
  ⟨by decide,
    C5_cancelled_read_returns_at_once (scriptEnv true false) 4 (readerAt0 cfgPlain)
      worldCancelledAtEntry buf10 (by decide)⟩

/-- C6: continuable source, close-on-EOF off.  In any loop iteration of `Read`
whose source read returns `(n, io.EOF)` (any `n`) and whose following stat
succeeds with a size below the tracked offset, `Read` returns
`(n, ErrFileTruncate)` in that iteration: nothing is assumed about the time
since the last read, the rename and removal policies or the path on disk. -/
theorem C6_truncation_reported {W : Type} (env : Env W) (fuel : Nat) (st : St W)
    (info : FileInfo) (w1 : W)
    (hd : env.done st.w = false)
    (he : (env.fsRead st.w st.buf).err = some Err.EOF)
    (hc : env.continuable = true)
    (hce : st.r.config.CloseEOF = false)
    (hst : env.fsStat (env.fsRead st.w st.buf).w = (.ok info, w1))
    (hsz : info.size < (afterRead env st).r.offset) :
    (loop env (fuel + 1) st).2
      = some (Outcome.ret (env.fsRead st.w st.buf).n (some Err.ErrFileTruncate)) := by
  have hchk : errorChecks env (afterRead env st).r (afterRead env st).w Err.EOF
      = (some Err.ErrFileTruncate, w1, [Event.stat]) := by
    have hw : (afterRead env st).w = (env.fsRead st.w st.buf).w := rfl
    unfold errorChecks
    rw [hw, hst]
    simp [afterRead_config, hce, hsz]
  unfold loop
  rw [step_terminal env st _ _ _ hd he hc hchk]

/-- C6 witness: a file truncated to 5 bytes under a reader at offset 10, last
read 5000 time units ago (threshold 100), renamed and removed as well, with
both policies on: the call returns `(0, ErrFileTruncate)`. -/
theorem C6_truncation_reported_witness :
    (Read (scriptEnv true true) (0 + 1) (readerAt10 cfgClosing) worldTruncatedStale buf10).2
        = some (Outcome.ret 0 (some Err.ErrFileTruncate))
      ∧ timeSince ((scriptEnv true true).now worldTruncatedStale)
          (readerAt10 cfgClosing).lastTimeRead > cfgClosing.CloseInactive :=
  ⟨C6_truncation_reported (scriptEnv true true) 0
      { r := readerAt10 cfgClosing, w := worldTruncatedStale, pre := [], buf := buf10,
        trace := [] }
      { size := 5, ident := 1 } { worldTruncatedStale with reads := [], stats := [] }
      (by decide) (by decide) (by decide) (by decide) rfl (by decide),
    by decide⟩

/-! ### C7: the order of the end-of-stream diagnostics -/

theorem removedCheck_fst {W : Type} (env : Env W) (r : LogFileReader) (w : W)
    (evs : List Event) :
    (removedCheck env r w evs).1
      = firstMatch [(r.config.CloseRemoved && (env.osStat w).1.isSome, Err.ErrRemoved)] := by
  unfold removedCheck
  by_cases hrm : r.config.CloseRemoved = true
  · rw [if_pos hrm]
    rcases hos : env.osStat w with ⟨oe, w3⟩
    cases oe <;> simp [firstMatch, hrm]
  · simp [firstMatch, hrm]

/-- C7: `errorChecks` applied to `io.EOF` returns what the first-match-wins
evaluation of the ordered list (close-on-EOF, stat failure, truncation,
inactivity, rename, removal) returns; when the stat succeeds, `ErrRenamed` is
returned only if the size is not below the offset, and with close-on-EOF off a
size below the offset gives `ErrFileTruncate` whatever the identity comparison
says. -/
theorem C7_errorChecks_first_match_wins {W : Type} (env : Env W) (r : LogFileReader) (w : W) :
    (errorChecks env r w Err.EOF).1 = errorChecksSpec env r w
      ∧ (∀ info w1, env.fsStat w = (.ok info, w1) →
          (errorChecks env r w Err.EOF).1 = some Err.ErrRenamed → ¬ info.size < r.offset)
      ∧ (∀ info w1, r.config.CloseEOF = false → env.fsStat w = (.ok info, w1) →
          info.size < r.offset → (errorChecks env r w Err.EOF).1 = some Err.ErrFileTruncate) := by
  refine ⟨?_, ?_, ?_⟩
  · unfold errorChecks errorChecksSpec
    by_cases hce : r.config.CloseEOF = true
    · rcases hst : env.fsStat w with ⟨res, w1⟩
      cases res <;> simp [firstMatch, hce]
    · rw [if_neg (by simp [hce])]
      rcases hst : env.fsStat w with ⟨res, w1⟩
      cases res with
      | error e => simp [firstMatch, hce]
      | ok info =>
        simp only
        by_cases htr : info.size < r.offset
        · simp [firstMatch, hce, htr]
        · by_cases hin : timeSince (env.now w1) r.lastTimeRead > r.config.CloseInactive
          · simp [firstMatch, hce, htr, hin]
          · rw [if_neg htr, if_neg hin]
            by_cases hrn : r.config.CloseRenamed = true
            · rw [if_pos hrn]
              rcases hsame : env.isSameFile w1 info with ⟨b, w2⟩
              cases b with
              | false => simp [firstMatch, hce, htr, hin, hrn]
              | true =>
                simp only
                rw [removedCheck_fst]
                simp [firstMatch, hce, htr, hin, hrn]
            · rw [if_neg hrn, removedCheck_fst]
              simp [firstMatch, hce, htr, hin, hrn]
  · intro info w1 hst hres hsz
    unfold errorChecks at hres
    rw [hst] at hres
    by_cases hce : r.config.CloseEOF = true
    · simp [hce] at hres
    · simp [hce, hsz] at hres
  · intro info w1 hce hst hsz
    unfold errorChecks
    rw [hst]
    simp [hce, hsz]

/-- C7 witness: the file of `worldTruncatedStale` is truncated, stale, renamed
and removed, with both policies on; the diagnostics report truncation, as the
ordered list does. -/
theorem C7_errorChecks_first_match_wins_witness :
    (errorChecks (scriptEnv true true) (readerAt10 cfgClosing) worldTruncatedStale Err.EOF).1
        = errorChecksSpec (scriptEnv true true) (readerAt10 cfgClosing) worldTruncatedStale
      ∧ (errorChecks (scriptEnv true true) (readerAt10 cfgClosing) worldTruncatedStale Err.EOF).1
        = some Err.ErrFileTruncate :=
  ⟨(C7_errorChecks_first_match_wins (scriptEnv true true) (readerAt10 cfgClosing)
      worldTruncatedStale).1,
    (C7_errorChecks_first_match_wins (scriptEnv true true) (readerAt10 cfgClosing)
      worldTruncatedStale).2.2 { size := 5, ident := 1 } { worldTruncatedStale with stats := [] }
      (by decide) rfl (by decide)⟩

/-! ### C8, C9: end-of-stream on a non-continuable source, fatal read errors -/

/-- C8: non-continuable source, any configuration.  If the first source read of
a `Read` call returns `(n, io.EOF)`, the call returns `(n, io.EOF)`; its trace
is that one read (no stat, no wait) and the backoff is as it was. -/
theorem C8_noncontinuable_eof_returns {W : Type} (env : Env W) (fuel : Nat)
    (r : LogFileReader) (w : W) (buf : List Byte)
    (hd : env.done w = false)
    (he : (env.fsRead w buf).err = some Err.EOF)
    (hc : env.continuable = false) :
    (Read env (fuel + 1) r w buf).2 = some (Outcome.ret (env.fsRead w buf).n (some Err.EOF))
      ∧ (Read env (fuel + 1) r w buf).1.trace
        = [Event.read (env.fsRead w buf).n (some Err.EOF)
            ((writeInto buf (env.fsRead w buf).data).take (env.fsRead w buf).n.toNat)]
      ∧ (Read env (fuel + 1) r w buf).1.r.backoff = r.backoff := by
  unfold Read loop
  rw [step_noncontinuable env _ hd he hc]
  refine ⟨rfl, ?_, ?_⟩
  · simp [afterRead, he]
  · simp [afterRead, noteRead_backoff]

/-- C8 witness: a non-continuable source hands out 2 bytes with end-of-stream;
the call returns `(2, io.EOF)` after that one read, backoff still 2. -/
theorem C8_noncontinuable_eof_returns_witness :
    (Read (scriptEnv false false) (3 + 1) (readerAt0 cfgSlow) worldTwoThenEOF buf10).2
        = some (Outcome.ret 2 (some Err.EOF))
      ∧ (Read (scriptEnv false false) (3 + 1) (readerAt0 cfgSlow) worldTwoThenEOF buf10).1.trace
        = [Event.read 2 (some Err.EOF) [7, 8]]
      ∧ (Read (scriptEnv false false) (3 + 1) (readerAt0 cfgSlow) worldTwoThenEOF
          buf10).1.r.backoff = 2 :=
  C8_noncontinuable_eof_returns (scriptEnv false false) 3 (readerAt0 cfgSlow) worldTwoThenEOF
    buf10 (by decide) (by decide) (by decide)

/-- C9: in any loop iteration of `Read` whose source read returns `(n, e)` with
`e` an error other than `io.EOF`, the call returns `(n, e)` with that error
value; the iteration adds that one read to the trace (no stat, no identity or
path check, no wait) and the backoff is as it was. -/
theorem C9_fatal_read_error_verbatim {W : Type} (env : Env W) (fuel : Nat) (st : St W)
    (e : Err)
    (hd : env.done st.w = false)
    (he : (env.fsRead st.w st.buf).err = some e)
    (hne : e ≠ Err.EOF) :
    (loop env (fuel + 1) st).2 = some (Outcome.ret (env.fsRead st.w st.buf).n (some e))
      ∧ (loop env (fuel + 1) st).1.trace
        = st.trace ++ [Event.read (env.fsRead st.w st.buf).n (some e)
            ((writeInto st.buf (env.fsRead st.w st.buf).data).take
              (env.fsRead st.w st.buf).n.toNat)]
      ∧ (loop env (fuel + 1) st).1.r.backoff = st.r.backoff := by
  unfold loop
  rw [step_fatal env st e hd he hne]
  refine ⟨rfl, ?_, ?_⟩
  · simp [afterRead, he]
  · simp [afterRead, noteRead_backoff]

/-- C9 witness: the source read hands out 2 bytes with an I/O error; the call
returns `(2, that error)` with the one read in its trace. -/
theorem C9_fatal_read_error_verbatim_witness :
    (Read (scriptEnv true false) (3 + 1) (readerAt0 cfgSlow) worldReadFails buf10).2
        = some (Outcome.ret 2 (some (Err.other 5)))
      ∧ (Read (scriptEnv true false) (3 + 1) (readerAt0 cfgSlow) worldReadFails buf10).1.trace
        = [] ++ [Event.read 2 (some (Err.other 5)) [7, 8]]
      ∧ (Read (scriptEnv true false) (3 + 1) (readerAt0 cfgSlow) worldReadFails
          buf10).1.r.backoff = 2 :=
  C9_fatal_read_error_verbatim (scriptEnv true false) 3
    { r := readerAt0 cfgSlow, w := worldReadFails, pre := [], buf := buf10, trace := [] }
    (Err.other 5) (by decide) (by decide) (by decide)

/-! ### C10: end-of-stream is not returned by a continuable source -/

/-- The signals `errorChecks` can return for `io.EOF` with close-on-EOF off. -/
theorem errorChecks_classify {W : Type} (env : Env W) (r : LogFileReader) (w w2 : W)
    (e : Err) (evs : List Event) (hce : r.config.CloseEOF = false)
    (h : errorChecks env r w Err.EOF = (some e, w2, evs)) :
    e = Err.ErrFileTruncate ∨ e = Err.ErrInactive ∨ e = Err.ErrRenamed ∨ e = Err.ErrRemoved
      ∨ (env.fsStat w).1 = .error e := by
  unfold errorChecks at h
  rw [if_neg (by simp [hce])] at h
  rcases hst : env.fsStat w with ⟨res, w1⟩
  rw [hst] at h
  cases res with
  | error se =>
    simp only [Prod.mk.injEq, Option.some.injEq] at h
    right; right; right; right
    rw [h.1]
  | ok info =>
    simp only at h
    split_ifs at h with h1 h2 h3
    · simp only [Prod.mk.injEq, Option.some.injEq] at h
      exact Or.inl h.1.symm
    · simp only [Prod.mk.injEq, Option.some.injEq] at h
      exact Or.inr (Or.inl h.1.symm)
    · split at h
      · simp only [Prod.mk.injEq, Option.some.injEq] at h
        exact Or.inr (Or.inr (Or.inl h.1.symm))
      · unfold removedCheck at h
        split_ifs at h
        · split at h
          · simp only [Prod.mk.injEq, Option.some.injEq] at h
            exact Or.inr (Or.inr (Or.inr (Or.inl h.1.symm)))
          · simp at h
        · simp at h
    · unfold removedCheck at h
      split_ifs at h
      · split at h
        · simp only [Prod.mk.injEq, Option.some.injEq] at h
          exact Or.inr (Or.inr (Or.inr (Or.inl h.1.symm)))
        · simp at h
      · simp at h

theorem step_config {W : Type} (env : Env W) (st : St W) :
    (step env st).1.r.config = st.r.config := by
  apply step_elim env st (fun res => res.1.r.config = st.r.config)
  · intro _
    rfl
  · intro _ _
    exact afterRead_config env st
  · intro e _ _ _
    exact afterRead_config env st
  · intro _ _ _
    exact afterRead_config env st
  · intro e w2 evs _ _ _ _
    exact afterRead_config env st
  · intro w2 evs _ _ _ _ _
    exact afterRead_config env st
  · intro w2 evs _ _ _ _ _ _
    exact afterRead_config env st
  · intro w2 evs _ _ _ _ _ _
    simp only
    rw [wait_config, afterRead_config]

/-- The error a loop iteration returns after an end-of-stream read, on a
continuable source with close-on-EOF off: one of the four signals or the error
of the stat. -/
theorem step_eof_classify {W : Type} (env : Env W) (st : St W) (n : Int) (e : Err)
    (hc : env.continuable = true) (hce : st.r.config.CloseEOF = false)
    (he : (env.fsRead st.w st.buf).err = some Err.EOF)
    (hret : (step env st).2 = some (Outcome.ret n (some e))) :
    e = Err.ErrFileTruncate ∨ e = Err.ErrInactive ∨ e = Err.ErrRenamed ∨ e = Err.ErrRemoved
      ∨ ∃ w1, (env.fsStat w1).1 = .error e := by
  revert hret
  apply step_elim env st (fun res => res.2 = some (Outcome.ret n (some e)) →
    (e = Err.ErrFileTruncate ∨ e = Err.ErrInactive ∨ e = Err.ErrRenamed ∨ e = Err.ErrRemoved
      ∨ ∃ w1, (env.fsStat w1).1 = .error e))
  · intro _ h
    simp at h
  · intro _ _ h
    simp at h
  · intro e2 _ he2 hne _
    rw [he] at he2
    simp only [Option.some.injEq] at he2
    exact absurd he2.symm hne
  · intro _ _ hc0
    rw [hc] at hc0
    simp at hc0
  · intro e2 w2 evs _ _ _ hchk h
    simp only [Option.some.injEq, Outcome.ret.injEq] at h
    have hcl := errorChecks_classify env _ _ w2 e2 evs
      (by rw [afterRead_config]; exact hce) hchk
    rw [h.2] at hcl
    rcases hcl with h1 | h1 | h1 | h1 | h1
    · exact Or.inl h1
    · exact Or.inr (Or.inl h1)
    · exact Or.inr (Or.inr (Or.inl h1))
    · exact Or.inr (Or.inr (Or.inr (Or.inl h1)))
    · exact Or.inr (Or.inr (Or.inr (Or.inr ⟨_, h1⟩)))
  · intro w2 evs _ _ _ _ _ h
    simp at h
  · intro w2 evs _ _ _ _ _ _ h
    simp at h
  · intro w2 evs _ _ _ _ _ _ h
    simp at h

theorem step_never_eof {W : Type} (env : Env W) (st : St W) (n : Int)
    (hc : env.continuable = true) (hce : st.r.config.CloseEOF = false)
    (hstat : ∀ w1, (env.fsStat w1).1 ≠ .error Err.EOF) :
    (step env st).2 ≠ some (Outcome.ret n (some Err.EOF)) := by
  intro hret
  by_cases hd : env.done st.w = true
  · rw [step_done env st hd] at hret
    simp at hret
  · have hd0 : env.done st.w = false := by simpa using hd
    cases he : (env.fsRead st.w st.buf).err with
    | none =>
      rw [step_ok env st hd0 he] at hret
      simp at hret
    | some e =>
      by_cases hne : e = Err.EOF
      · subst hne
        rcases step_eof_classify env st n Err.EOF hc hce he hret with h | h | h | h | ⟨w1, h⟩
        · exact absurd h (by decide)
        · exact absurd h (by decide)
        · exact absurd h (by decide)
        · exact absurd h (by decide)
        · exact hstat w1 h
      · rw [step_fatal env st e hd0 he hne] at hret
        simp only [Option.some.injEq, Outcome.ret.injEq] at hret
        exact hne hret.2

theorem loop_never_eof {W : Type} (env : Env W) (n : Int)
    (hc : env.continuable = true) (hstat : ∀ w1, (env.fsStat w1).1 ≠ .error Err.EOF) :
    ∀ (fuel : Nat) (st : St W), st.r.config.CloseEOF = false →
      (loop env fuel st).2 ≠ some (Outcome.ret n (some Err.EOF)) := by
  intro fuel
  induction fuel with
  | zero =>
    intro st _
    simp [loop]
  | succ fuel ih =>
    intro st hce
    have hs := step_never_eof env st n hc hce hstat
    have hcfg := step_config env st
    unfold loop
    rcases hres : step env st with ⟨st1, o⟩
    rw [hres] at hs hcfg
    cases o with
    | none =>
      simp only
      exact ih st1 (by rw [hcfg]; exact hce)
    | some out =>
      exact hs

/-- C10: continuable source, close-on-EOF off, a stat that never fails with
`io.EOF`.  No `Read` call returns `(n, io.EOF)`, whatever the fuel; and the
error returned by a loop iteration whose source read reported `io.EOF` is one of
`ErrFileTruncate`, `ErrInactive`, `ErrRenamed`, `ErrRemoved` or the error of a
stat (the other iterations after such a read retry or return a nil error). -/
theorem C10_continuable_never_returns_eof {W : Type} (env : Env W) (fuel : Nat)
    (r : LogFileReader) (w : W) (buf : List Byte) (n : Int)
    (hc : env.continuable = true) (hce : r.config.CloseEOF = false)
    (hstat : ∀ w1, (env.fsStat w1).1 ≠ .error Err.EOF) :
    (Read env fuel r w buf).2 ≠ some (Outcome.ret n (some Err.EOF))
      ∧ ∀ (st : St W) (m : Int) (e : Err), st.r.config = r.config →
          (env.fsRead st.w st.buf).err = some Err.EOF →
          (step env st).2 = some (Outcome.ret m (some e)) →
          e = Err.ErrFileTruncate ∨ e = Err.ErrInactive ∨ e = Err.ErrRenamed
            ∨ e = Err.ErrRemoved ∨ ∃ w1, (env.fsStat w1).1 = .error e :=
  ⟨loop_never_eof env n hc hstat fuel _ hce,
    fun st m e hcfg he hret =>
      step_eof_classify env st m e hc (by rw [hcfg]; exact hce) he hret⟩

/-- C10 witness: a continuable source with a stat that always succeeds, at
end-of-stream for four polls and then handing out a byte: the call returns
`(1, nil)`, not end-of-stream. -/
theorem C10_continuable_never_returns_eof_witness :
    (Read steadyEnv 9 (readerAt0 cfgSlow) worldFourEOF buf10).2 = some (Outcome.ret 1 none)
      ∧ (Read steadyEnv 9 (readerAt0 cfgSlow) worldFourEOF buf10).2
        ≠ some (Outcome.ret 0 (some Err.EOF)) :=
  ⟨by decide,
    (C10_continuable_never_returns_eof steadyEnv 9 (readerAt0 cfgSlow) worldFourEOF buf10 0
      (by decide) (by decide) (fun w1 => by simp [steadyEnv])).1⟩

/-! ### Writing into the buffer -/

theorem writeInto_length (buf data : List Byte) :
    (writeInto buf data).length = buf.length := by
  simp [writeInto]
  omega

theorem writeInto_nil (buf : List Byte) : writeInto buf [] = buf := by
  simp [writeInto]

theorem writeInto_take (buf data : List Byte) (h : data.length ≤ buf.length) :
    (writeInto buf data).take data.length = data := by
  unfold writeInto
  rw [List.take_of_length_le h, List.take_left]

/-! ### Events of the diagnostics -/

theorem removedCheck_isCheck {W : Type} (env : Env W) (r : LogFileReader) (w : W)
    (evs : List Event) (h : evs.all Event.isCheck = true) :
    (removedCheck env r w evs).2.2.all Event.isCheck = true := by
  unfold removedCheck
  split
  · split <;> simp [Event.isCheck, h]
  · exact h

theorem errorChecks_isCheck {W : Type} (env : Env W) (r : LogFileReader) (w : W) (err : Err) :
    (errorChecks env r w err).2.2.all Event.isCheck = true := by
  unfold errorChecks
  split
  · rfl
  · split
    · rfl
    · split_ifs
      · rfl
      · rfl
      · split
        · rfl
        · exact removedCheck_isCheck env r _ _ rfl
      · exact removedCheck_isCheck env r _ _ rfl

theorem errorChecks_isCheck_of_eq {W : Type} (env : Env W) (r : LogFileReader) (w w2 : W)
    (err : Err) (oe : Option Err) (evs : List Event)
    (h : errorChecks env r w err = (oe, w2, evs)) : evs.all Event.isCheck = true := by
  have hs := errorChecks_isCheck env r w err
  rw [h] at hs
  exact hs

theorem readErrs_append (a b : List Event) : readErrs (a ++ b) = readErrs a ++ readErrs b := by
  induction a with
  | nil => rfl
  | cons e es ih => cases e <;> simp [readErrs, ih]

theorem readErrs_checks (evs : List Event) (h : evs.all Event.isCheck = true) :
    readErrs evs = [] := by
  induction evs with
  | nil => rfl
  | cons e es ih =>
    simp only [List.all_cons, Bool.and_eq_true] at h
    cases e <;> simp_all [readErrs, Event.isCheck]

theorem readCount_append (a b : List Event) : readCount (a ++ b) = readCount a + readCount b := by
  induction a with
  | nil => simp [readCount]
  | cons e es ih =>
    cases e
    case read n err bytes =>
      simp [readCount, ih]
      omega
    all_goals simp [readCount, ih]

theorem readCount_checks (evs : List Event) (h : evs.all Event.isCheck = true) :
    readCount evs = 0 := by
  induction evs with
  | nil => rfl
  | cons e es ih =>
    simp only [List.all_cons, Bool.and_eq_true] at h
    cases e <;> simp_all [readCount, Event.isCheck]

theorem bytesRead_append (a b : List Event) : bytesRead (a ++ b) = bytesRead a + bytesRead b := by
  induction a with
  | nil => simp [bytesRead]
  | cons e es ih =>
    cases e
    case read n err bytes =>
      simp [bytesRead, ih]
      omega
    all_goals simp [bytesRead, ih]

theorem bytesRead_checks (evs : List Event) (h : evs.all Event.isCheck = true) :
    bytesRead evs = 0 := by
  induction evs with
  | nil => rfl
  | cons e es ih =>
    simp only [List.all_cons, Bool.and_eq_true] at h
    cases e <;> simp_all [bytesRead, Event.isCheck]

/-! ### C12: the backoff after a successful read -/

theorem afterRead_readErrs {W : Type} (env : Env W) (st : St W) :
    readErrs (afterRead env st).trace = readErrs st.trace ++ [(env.fsRead st.w st.buf).err] := by
  simp [afterRead, readErrs_append, readErrs]

/-- An iteration that returns `(n, nil)` with `n > 0` after a source read that
reported no error leaves the backoff at the base. -/
theorem step_backoff_reset {W : Type} (env : Env W) (st : St W) (n : Int)
    (hret : (step env st).2 = some (Outcome.ret n none)) (hn : 0 < n)
    (hlast : lastReadErr (step env st).1.trace = some none) :
    (step env st).1.r.backoff = st.r.config.Backoff := by
  revert hret hlast
  apply step_elim env st (fun res => res.2 = some (Outcome.ret n none) →
    lastReadErr res.1.trace = some none → res.1.r.backoff = st.r.config.Backoff)
  · intro _ h _
    simp only [Option.some.injEq, Outcome.ret.injEq] at h
    omega
  · intro _ _ _ _
    simp only
    rw [afterRead_config]
  · intro e _ _ _ h _
    simp at h
  · intro _ _ _ h _
    simp at h
  · intro e w2 evs _ _ _ _ h _
    simp at h
  · intro w2 evs _ _ _ _ _ h _
    simp at h
  · intro w2 evs _ he _ hchk _ _ _ hl
    have hev := readErrs_checks evs (errorChecks_isCheck_of_eq env _ _ _ _ _ _ hchk)
    simp [lastReadErr, readErrs_append, afterRead_readErrs, hev, he] at hl
  · intro w2 evs _ _ _ _ _ _ h _
    simp at h

theorem loop_backoff_reset {W : Type} (env : Env W) (n : Int) (hn : 0 < n) :
    ∀ (fuel : Nat) (st : St W), (loop env fuel st).2 = some (Outcome.ret n none) →
      lastReadErr (loop env fuel st).1.trace = some none →
      (loop env fuel st).1.r.backoff = st.r.config.Backoff := by
  intro fuel
  induction fuel with
  | zero =>
    intro st h _
    simp [loop] at h
  | succ fuel ih =>
    intro st
    have hs := step_backoff_reset env st n
    have hcfg := step_config env st
    unfold loop
    rcases hres : step env st with ⟨st1, o⟩
    rw [hres] at hs hcfg
    cases o with
    | none =>
      simp only
      intro h hl
      rw [← hcfg]
      exact ih st1 h hl
    | some out =>
      intro h hl
      exact hs h hn hl

/-- C12 (amended): after every `Read` call that returns `n > 0` bytes with a nil
error and whose last source read reported no error, the backoff equals the
configured base `Backoff`. -/
theorem C12_backoff_reset_after_error_free_read {W : Type} (env : Env W) (fuel : Nat)
    (r : LogFileReader) (w : W) (buf : List Byte) (n : Int)
    (hret : (Read env fuel r w buf).2 = some (Outcome.ret n none)) (hn : 0 < n)
    (hlast : lastReadErr (Read env fuel r w buf).1.trace = some none) :
    (Read env fuel r w buf).1.r.backoff = r.config.Backoff :=
  loop_backoff_reset env n hn fuel _ hret hlast

/-- C12 witness: base 2, cap 10, factor 3; after four end-of-stream polls (the
backoff has grown to the cap) the source hands out a byte without error; the
call returns `(1, nil)` and the backoff is 2 again. -/
theorem C12_backoff_reset_after_error_free_read_witness :
    (Read (scriptEnv true false) 9 (readerAt0 cfgSlow) worldFourEOF buf10).2
        = some (Outcome.ret 1 none)
      ∧ (Read (scriptEnv true false) 4 (readerAt0 cfgSlow) worldFourEOF buf10).1.r.backoff = 10
      ∧ (Read (scriptEnv true false) 9 (readerAt0 cfgSlow) worldFourEOF buf10).1.r.backoff
        = (readerAt0 cfgSlow).config.Backoff :=
  ⟨by decide, by decide,
    C12_backoff_reset_after_error_free_read (scriptEnv true false) 9 (readerAt0 cfgSlow)
      worldFourEOF buf10 1 (by decide) (by decide) (by decide)⟩

/-- C12 counterexample: base 1, cap 8, factor 2; the source is at end-of-stream
for one poll (the call waits, the backoff grows to 2), then fills the 10-byte
buffer while reporting end-of-stream; the call returns `(10, nil)` with the
backoff still 2, not the base 1. -/
theorem C12_counterexample_buffer_filled_at_eof :
    (Read (scriptEnv true false) 5 (readerAt0 cfgPlain) worldFillAtEOF buf10).2
        = some (Outcome.ret 10 none)
      ∧ (0 : Int) < 10
      ∧ (Read (scriptEnv true false) 5 (readerAt0 cfgPlain) worldFillAtEOF buf10).1.r.backoff = 2
      ∧ ¬ ((Read (scriptEnv true false) 5 (readerAt0 cfgPlain) worldFillAtEOF buf10).1.r.backoff
          = (readerAt0 cfgPlain).config.Backoff) := by
  decide

/-! ### C13: the returned count and the re-slicing stay in range -/

theorem afterRead_buf_length {W : Type} (env : Env W) (st : St W) :
    (afterRead env st).buf.length = st.buf.length := by
  simp [afterRead, writeInto_length]

/-- One iteration on a source that keeps `0 ≤ n ≤ len`: no index error, a
returned count within the slice, and a next slice no longer than this one. -/
theorem step_in_range {W : Type} (env : Env W) (st : St W) (L : Nat)
    (hsrc : ∀ w b, 0 ≤ (env.fsRead w b).n ∧ (env.fsRead w b).n ≤ (b.length : Int))
    (hL : st.buf.length ≤ L) :
    (step env st).2 ≠ some Outcome.indexError
      ∧ (∀ n e, (step env st).2 = some (Outcome.ret n e) → 0 ≤ n ∧ n ≤ (L : Int))
      ∧ ((step env st).2 = none → (step env st).1.buf.length ≤ L) := by
  have hn := hsrc st.w st.buf
  have hnL : (env.fsRead st.w st.buf).n ≤ (L : Int) := by omega
  have hret : ∀ (n : Int) (e e2 : Option Err),
      some (Outcome.ret (env.fsRead st.w st.buf).n e2) = some (Outcome.ret n e) →
      0 ≤ n ∧ n ≤ (L : Int) := by
    intro n e e2 h
    simp only [Option.some.injEq, Outcome.ret.injEq] at h
    rw [← h.1]
    exact ⟨hn.1, hnL⟩
  apply step_elim env st (fun res => res.2 ≠ some Outcome.indexError
      ∧ (∀ n e, res.2 = some (Outcome.ret n e) → 0 ≤ n ∧ n ≤ (L : Int))
      ∧ (res.2 = none → res.1.buf.length ≤ L))
  · intro _
    refine ⟨by simp, ?_, by simp⟩
    intro n e h
    simp only [Option.some.injEq, Outcome.ret.injEq] at h
    rw [← h.1]
    omega
  · intro _ _
    exact ⟨by simp, fun n e h => hret n e _ h, by simp⟩
  · intro e _ _ _
    exact ⟨by simp, fun n e h => hret n e _ h, by simp⟩
  · intro _ _ _
    exact ⟨by simp, fun n e h => hret n e _ h, by simp⟩
  · intro e w2 evs _ _ _ _
    exact ⟨by simp, fun n e h => hret n e _ h, by simp⟩
  · intro w2 evs _ _ _ _ hbad
    rw [afterRead_buf_length] at hbad
    omega
  · intro w2 evs _ _ _ _ _ _
    exact ⟨by simp, fun n e h => hret n e _ h, by simp⟩
  · intro w2 evs _ _ _ _ _ _
    refine ⟨by simp, by simp, fun _ => ?_⟩
    simp only [List.length_drop, afterRead_buf_length]
    omega

theorem loop_in_range {W : Type} (env : Env W) (L : Nat)
    (hsrc : ∀ w b, 0 ≤ (env.fsRead w b).n ∧ (env.fsRead w b).n ≤ (b.length : Int)) :
    ∀ (fuel : Nat) (st : St W), st.buf.length ≤ L →
      (loop env fuel st).2 ≠ some Outcome.indexError
        ∧ ∀ n e, (loop env fuel st).2 = some (Outcome.ret n e) → 0 ≤ n ∧ n ≤ (L : Int) := by
  intro fuel
  induction fuel with
  | zero =>
    intro st _
    simp [loop]
  | succ fuel ih =>
    intro st hL
    have hs := step_in_range env st L hsrc hL
    unfold loop
    rcases hres : step env st with ⟨st1, o⟩
    rw [hres] at hs
    cases o with
    | none => exact ih st1 (hs.2.2 rfl)
    | some out => exact ⟨hs.1, hs.2.1⟩

/-- C13: for every source whose read returns `0 <= n <= len(its argument)`, a
`Read` call never ends in the out-of-range panic of `buf[n:]`, and when it
returns `(n, err)` then `0 <= n <= len(buffer)`. -/
theorem C13_count_and_reslice_in_range {W : Type} (env : Env W) (fuel : Nat)
    (r : LogFileReader) (w : W) (buf : List Byte)
    (hsrc : ∀ w b, 0 ≤ (env.fsRead w b).n ∧ (env.fsRead w b).n ≤ (b.length : Int)) :
    (Read env fuel r w buf).2 ≠ some Outcome.indexError
      ∧ ∀ n e, (Read env fuel r w buf).2 = some (Outcome.ret n e) →
          0 ≤ n ∧ n ≤ (buf.length : Int) :=
  loop_in_range env buf.length hsrc fuel _ (le_refl _)

/-- The scripted source of `tidyEnv` keeps `0 <= n <= len(buf)`. -/
theorem tidyEnv_in_range (w : Script) (b : List Byte) :
    0 ≤ (tidyEnv.fsRead w b).n ∧ (tidyEnv.fsRead w b).n ≤ (b.length : Int) := by
  unfold tidyEnv
  simp only
  split
  · simp
  · simp only
    omega

/-- C13 witness: the clamped source hands out 3 bytes with end-of-stream, then
4 bytes; the call returns `(4, nil)`, within the 10-byte buffer. -/
theorem C13_count_and_reslice_in_range_witness :
    (Read tidyEnv 5 (readerAt0 cfgPlain) worldPartialEOF buf10).2 = some (Outcome.ret 4 none)
      ∧ (Read tidyEnv 5 (readerAt0 cfgPlain) worldPartialEOF buf10).2
        ≠ some Outcome.indexError
      ∧ ((0 : Int) ≤ 4 ∧ (4 : Int) ≤ (buf10.length : Int)) :=
  ⟨by decide,
    (C13_count_and_reslice_in_range tidyEnv 5 (readerAt0 cfgPlain) worldPartialEOF buf10
      tidyEnv_in_range).1,
    (C13_count_and_reslice_in_range tidyEnv 5 (readerAt0 cfgPlain) worldPartialEOF buf10
      tidyEnv_in_range).2 4 none (by decide)⟩

/-! ### C14: the constructor -/

/-- C14: `NewLogFileReader` fails exactly when the source is seekable and the
query of its current position fails, and then returns that error (and no
reader); on a seekable source whose position is `off` it returns a reader with
offset `off`, on a non-seekable source a reader with offset 0; in both cases
the reader's backoff is `config.Backoff` and its config is the given one. -/
theorem C14_constructor {W : Type} (env : Env W) (config : LogFileReaderConfig) (w : W) :
    ((∃ e, (NewLogFileReader env config w).1 = .error e)
        ↔ ∃ seek e, env.seeker = some seek ∧ (seek w).1 = .error e)
      ∧ (∀ seek e, env.seeker = some seek → (seek w).1 = .error e →
          (NewLogFileReader env config w).1 = .error e)
      ∧ (∀ seek off, env.seeker = some seek → (seek w).1 = .ok off →
          ∃ r, (NewLogFileReader env config w).1 = .ok r ∧ r.offset = off
            ∧ r.backoff = config.Backoff ∧ r.config = config)
      ∧ (env.seeker = none →
          ∃ r, (NewLogFileReader env config w).1 = .ok r ∧ r.offset = 0
            ∧ r.backoff = config.Backoff ∧ r.config = config) := by
  have herr : ∀ seek e, env.seeker = some seek → (seek w).1 = .error e →
      (NewLogFileReader env config w).1 = .error e := by
    intro seek e hs he
    unfold NewLogFileReader
    rw [hs]
    rcases hsw : seek w with ⟨res, w1⟩
    rw [hsw] at he
    simp only at he
    subst he
    simp only [hsw]
  have hok : ∀ seek off, env.seeker = some seek → (seek w).1 = .ok off →
      ∃ r, (NewLogFileReader env config w).1 = .ok r ∧ r.offset = off
        ∧ r.backoff = config.Backoff ∧ r.config = config := by
    intro seek off hs ho
    unfold NewLogFileReader
    rw [hs]
    rcases hsw : seek w with ⟨res, w1⟩
    rw [hsw] at ho
    simp only at ho
    subst ho
    simp only [hsw]
    exact ⟨_, rfl, rfl, rfl, rfl⟩
  have hnone : env.seeker = none →
      ∃ r, (NewLogFileReader env config w).1 = .ok r ∧ r.offset = 0
        ∧ r.backoff = config.Backoff ∧ r.config = config := by
    intro hs
    unfold NewLogFileReader
    rw [hs]
    exact ⟨_, rfl, rfl, rfl, rfl⟩
  refine ⟨⟨?_, ?_⟩, herr, hok, hnone⟩
  · rintro ⟨e, he⟩
    cases hs : env.seeker with
    | none =>
      obtain ⟨r, hr, _⟩ := hnone hs
      rw [hr] at he
      simp at he
    | some seek =>
      rcases hsw : (seek w).1 with e2 | off
      · exact ⟨seek, e2, rfl, hsw⟩
      · obtain ⟨r, hr, _⟩ := hok seek off hs hsw
        rw [hr] at he
        simp at he
  · rintro ⟨seek, e, hs, he⟩
    exact ⟨e, herr seek e hs he⟩

/-- C14 witness: a seekable source at position 10 gives a reader at offset 10; a
seekable source whose position query fails gives that error; a non-seekable
source gives a reader at offset 0. -/
theorem C14_constructor_witness :
    (∃ r, (NewLogFileReader (scriptEnv true true) cfgPlain worldTruncatedStale).1 = .ok r
        ∧ r.offset = 10 ∧ r.backoff = cfgPlain.Backoff ∧ r.config = cfgPlain)
      ∧ (NewLogFileReader (scriptEnv true true) cfgPlain worldSeekFails).1
        = .error (Err.other 7)
      ∧ (∃ r, (NewLogFileReader (scriptEnv true false) cfgPlain worldSeekFails).1 = .ok r
        ∧ r.offset = 0 ∧ r.backoff = cfgPlain.Backoff ∧ r.config = cfgPlain) :=
  ⟨(C14_constructor (scriptEnv true true) cfgPlain worldTruncatedStale).2.2.1
      (fun w => (w.seekPos, w)) 10 rfl rfl,
    (C14_constructor (scriptEnv true true) cfgPlain worldSeekFails).2.1
      (fun w => (w.seekPos, w)) (Err.other 7) rfl rfl,
    (C14_constructor (scriptEnv true false) cfgPlain worldSeekFails).2.2.2 rfl⟩

/-! ### C15: the offset never decreases -/

theorem wait_offset {W : Type} (env : Env W) (r : LogFileReader) (w : W) :
    (wait env r w).1.offset = r.offset := by
  unfold wait
  simp only
  split_ifs <;> rfl

theorem afterRead_bytesRead {W : Type} (env : Env W) (st : St W) :
    bytesRead (afterRead env st).trace
      = bytesRead st.trace
        + (if (env.fsRead st.w st.buf).n > 0 then (env.fsRead st.w st.buf).n else 0) := by
  simp [afterRead, bytesRead_append, bytesRead]

theorem afterRead_offset {W : Type} (env : Env W) (st : St W)
    (hlo : minInt64 ≤ st.r.offset)
    (hhi : st.r.offset
      + (if (env.fsRead st.w st.buf).n > 0 then (env.fsRead st.w st.buf).n else 0) ≤ maxInt64) :
    (afterRead env st).r.offset
      = st.r.offset
        + (if (env.fsRead st.w st.buf).n > 0 then (env.fsRead st.w st.buf).n else 0) := by
  simp only [afterRead, noteRead]
  by_cases hn : (env.fsRead st.w st.buf).n > 0
  · rw [if_pos hn] at hhi
    rw [if_pos hn, if_pos hn]
    exact wrapInt64_of_range _ (by omega) hhi
  · rw [if_neg hn, if_neg hn]
    simp

/-- One iteration counts `d >= 0` more bytes in the trace, and advances the
offset by exactly `d` when `offset + d` fits `int64`. -/
theorem step_offset {W : Type} (env : Env W) (st : St W) :
    ∃ d : Int, 0 ≤ d
      ∧ bytesRead (step env st).1.trace = bytesRead st.trace + d
      ∧ (minInt64 ≤ st.r.offset → st.r.offset + d ≤ maxInt64 →
          (step env st).1.r.offset = st.r.offset + d) := by
  have hd0 : (0 : Int)
      ≤ (if (env.fsRead st.w st.buf).n > 0 then (env.fsRead st.w st.buf).n else 0) := by
    split_ifs <;> omega
  have hread : ∀ (s : St W) (evs : List Event), evs.all Event.isCheck = true →
      s.r.offset = (afterRead env st).r.offset →
      s.trace = (afterRead env st).trace ++ evs →
      ∃ d : Int, 0 ≤ d ∧ bytesRead s.trace = bytesRead st.trace + d
        ∧ (minInt64 ≤ st.r.offset → st.r.offset + d ≤ maxInt64 →
            s.r.offset = st.r.offset + d) := by
    intro s evs hev hoff htr
    refine ⟨_, hd0, ?_, ?_⟩
    · rw [htr, bytesRead_append, bytesRead_checks evs hev, afterRead_bytesRead]
      simp
    · intro hlo hhi
      rw [hoff]
      exact afterRead_offset env st hlo hhi
  apply step_elim env st (fun res => ∃ d : Int, 0 ≤ d
      ∧ bytesRead res.1.trace = bytesRead st.trace + d
      ∧ (minInt64 ≤ st.r.offset → st.r.offset + d ≤ maxInt64 →
          res.1.r.offset = st.r.offset + d))
  · intro _
    exact ⟨0, le_refl _, by simp, fun _ _ => by simp⟩
  · intro _ _
    exact hread _ [] rfl rfl (by simp)
  · intro e _ _ _
    exact hread _ [] rfl rfl (by simp)
  · intro _ _ _
    exact hread _ [] rfl rfl (by simp)
  · intro e w2 evs _ _ _ hchk
    exact hread _ evs (errorChecks_isCheck_of_eq env _ _ _ _ _ _ hchk) rfl rfl
  · intro w2 evs _ _ _ hchk _
    exact hread _ evs (errorChecks_isCheck_of_eq env _ _ _ _ _ _ hchk) rfl rfl
  · intro w2 evs _ _ _ hchk _ _
    exact hread _ evs (errorChecks_isCheck_of_eq env _ _ _ _ _ _ hchk) rfl rfl
  · intro w2 evs _ _ _ hchk _ _
    refine ⟨_, hd0, ?_, ?_⟩
    · simp only
      rw [bytesRead_append, bytesRead_append,
        bytesRead_checks evs (errorChecks_isCheck_of_eq env _ _ _ _ _ _ hchk),
        afterRead_bytesRead]
      simp [bytesRead]
    · intro hlo hhi
      simp only
      rw [wait_offset]
      exact afterRead_offset env st hlo hhi

theorem loop_offset {W : Type} (env : Env W) :
    ∀ (fuel : Nat) (st : St W), ∃ d : Int, 0 ≤ d
      ∧ bytesRead (loop env fuel st).1.trace = bytesRead st.trace + d
      ∧ (minInt64 ≤ st.r.offset → st.r.offset + d ≤ maxInt64 →
          (loop env fuel st).1.r.offset = st.r.offset + d) := by
  intro fuel
  induction fuel with
  | zero =>
    intro st
    exact ⟨0, le_refl _, by simp [loop], fun _ _ => by simp [loop]⟩
  | succ fuel ih =>
    intro st
    have hs := step_offset env st
    unfold loop
    rcases hres : step env st with ⟨st1, o⟩
    rw [hres] at hs
    cases o with
    | some out => exact hs
    | none =>
      obtain ⟨d, hd, htr, hoff⟩ := hs
      obtain ⟨d1, hd1, htr1, hoff1⟩ := ih st1
      simp only at htr hoff ⊢
      refine ⟨d + d1, by omega, by rw [htr1, htr]; ring, ?_⟩
      intro hlo hhi
      have h1 := hoff hlo (by omega)
      rw [hoff1 (by omega) (by omega), h1]
      ring

/-- C15: for every source (whatever counts its reads report) and every `Read`
call, returned or still running: when the arithmetic on the offset is exact,
that is the offset before the call plus the bytes counted by the call's source
reads is within `int64`, the offset after the call is the offset before plus
those bytes, and so not below the offset before. -/
theorem C15_offset_never_decreases {W : Type} (env : Env W) (fuel : Nat)
    (r : LogFileReader) (w : W) (buf : List Byte)
    (hlo : minInt64 ≤ r.offset)
    (hex : r.offset + bytesRead (Read env fuel r w buf).1.trace ≤ maxInt64) :
    (Read env fuel r w buf).1.r.offset = r.offset + bytesRead (Read env fuel r w buf).1.trace
      ∧ r.offset ≤ (Read env fuel r w buf).1.r.offset := by
  obtain ⟨d, hd, htr, hoff⟩ := loop_offset env fuel
    { r := r, w := w, pre := [], buf := buf, trace := [] }
  unfold Read at hex ⊢
  simp only [bytesRead, zero_add] at htr
  simp only at hoff
  rw [htr] at hex ⊢
  rw [hoff hlo hex]
  exact ⟨rfl, by omega⟩

/-- C15 witness: the source hands out 4 bytes with end-of-stream and then
reports a count of -3 without error; the call returns `(-3, nil)` and the
offset has moved from 10 to 14. -/
theorem C15_offset_never_decreases_witness :
    (Read (scriptEnv true false) 5 (readerAt cfgPlain 10) worldNegativeCount buf10).2
        = some (Outcome.ret (-3) none)
      ∧ (Read (scriptEnv true false) 5 (readerAt cfgPlain 10) worldNegativeCount
          buf10).1.r.offset = 14
      ∧ (readerAt cfgPlain 10).offset
        ≤ (Read (scriptEnv true false) 5 (readerAt cfgPlain 10) worldNegativeCount
          buf10).1.r.offset :=
  ⟨by decide, by decide,
    (C15_offset_never_decreases (scriptEnv true false) 5 (readerAt cfgPlain 10)
      worldNegativeCount buf10 (by decide) (by decide)).2⟩

/-! ### C16, C17, C18: close-on-EOF, error-free reads, a buffer filled at end-of-stream -/

/-- C16: continuable source, close-on-EOF on.  In any loop iteration of `Read`
whose source read returns `(n, io.EOF)`, the call returns `(n, io.EOF)`, and the
iteration adds that one read to the trace: no source stat, no identity
comparison, no path stat, no wait. -/
theorem C16_close_on_eof_returns_eof {W : Type} (env : Env W) (fuel : Nat) (st : St W)
    (hd : env.done st.w = false)
    (he : (env.fsRead st.w st.buf).err = some Err.EOF)
    (hc : env.continuable = true)
    (hce : st.r.config.CloseEOF = true) :
    (loop env (fuel + 1) st).2 = some (Outcome.ret (env.fsRead st.w st.buf).n (some Err.EOF))
      ∧ (loop env (fuel + 1) st).1.trace
        = st.trace ++ [Event.read (env.fsRead st.w st.buf).n (some Err.EOF)
            ((writeInto st.buf (env.fsRead st.w st.buf).data).take
              (env.fsRead st.w st.buf).n.toNat)] := by
  have hchk : errorChecks env (afterRead env st).r (afterRead env st).w Err.EOF
      = (some Err.EOF, (afterRead env st).w, []) := by
    unfold errorChecks
    rw [if_pos ⟨rfl, by rw [afterRead_config]; exact hce⟩]
  unfold loop
  rw [step_terminal env st _ _ _ hd he hc hchk]
  refine ⟨rfl, ?_⟩
  simp [afterRead, he]

/-- C16 witness: close-on-EOF on together with the rename and removal policies,
the file truncated, stale, renamed and removed; the call returns
`(0, io.EOF)` after the one read. -/
theorem C16_close_on_eof_returns_eof_witness :
    (Read (scriptEnv true false) (2 + 1) (readerAt10 cfgCloseEOF) worldTruncatedStale buf10).2
        = some (Outcome.ret 0 (some Err.EOF))
      ∧ (Read (scriptEnv true false) (2 + 1) (readerAt10 cfgCloseEOF) worldTruncatedStale
          buf10).1.trace = [] ++ [Event.read 0 (some Err.EOF) []] :=
  C16_close_on_eof_returns_eof (scriptEnv true false) 2
    { r := readerAt10 cfgCloseEOF, w := worldTruncatedStale, pre := [], buf := buf10,
      trace := [] }
    (by decide) (by decide) (by decide) (by decide)

/-- C17: if the cancellation signal is not set and the first source read of a
`Read` call returns `(n, nil)` (any `n`, any buffer), the call returns `(n, nil)`
and its trace is that one read: no stat, no wait. -/
theorem C17_error_free_read_returns_at_once {W : Type} (env : Env W) (fuel : Nat)
    (r : LogFileReader) (w : W) (buf : List Byte)
    (hd : env.done w = false)
    (he : (env.fsRead w buf).err = none) :
    (Read env (fuel + 1) r w buf).2 = some (Outcome.ret (env.fsRead w buf).n none)
      ∧ (Read env (fuel + 1) r w buf).1.trace
        = [Event.read (env.fsRead w buf).n none
            ((writeInto buf (env.fsRead w buf).data).take (env.fsRead w buf).n.toNat)] := by
  unfold Read loop
  rw [step_ok env _ hd he]
  refine ⟨rfl, ?_⟩
  simp [afterRead, he]

/-- C17 witness: the source hands out 3 bytes into a 10-byte buffer; the call
returns `(3, nil)` after the one read. -/
theorem C17_error_free_read_returns_at_once_witness :
    (Read (scriptEnv true false) (2 + 1) (readerAt0 cfgPlain) worldThreeBytes buf10).2
        = some (Outcome.ret 3 none)
      ∧ (Read (scriptEnv true false) (2 + 1) (readerAt0 cfgPlain) worldThreeBytes buf10).1.trace
        = [Event.read 3 none [1, 2, 3]] :=
  C17_error_free_read_returns_at_once (scriptEnv true false) 2 (readerAt0 cfgPlain)
    worldThreeBytes buf10 (by decide) (by decide)

/-- C18: continuable source.  In any loop iteration of `Read` whose source read
returns `(n, io.EOF)` with `n` the length of the remaining buffer (0 for an
empty one) and whose diagnostics return no signal, the call returns `(n, nil)`
in that iteration: the trace gains that one read and no sleep, and the backoff
is as it was. -/
theorem C18_buffer_filled_at_eof_returns {W : Type} (env : Env W) (fuel : Nat) (st : St W)
    (hd : env.done st.w = false)
    (he : (env.fsRead st.w st.buf).err = some Err.EOF)
    (hc : env.continuable = true)
    (hchk : (errorChecks env (afterRead env st).r (afterRead env st).w Err.EOF).1 = none)
    (hn : (env.fsRead st.w st.buf).n = (st.buf.length : Int)) :
    (loop env (fuel + 1) st).2 = some (Outcome.ret (env.fsRead st.w st.buf).n none)
      ∧ readCount (loop env (fuel + 1) st).1.trace = readCount st.trace + 1
      ∧ sleeps (loop env (fuel + 1) st).1.trace = sleeps st.trace
      ∧ (loop env (fuel + 1) st).1.r.backoff = st.r.backoff := by
  rcases hres : errorChecks env (afterRead env st).r (afterRead env st).w Err.EOF with
    ⟨oe, w2, evs⟩
  rw [hres] at hchk
  simp only at hchk
  subst hchk
  have hlen : (afterRead env st).buf.length = st.buf.length := afterRead_buf_length env st
  have hrange : ¬ ((env.fsRead st.w st.buf).n < 0
      ∨ (env.fsRead st.w st.buf).n > ((afterRead env st).buf.length : Int)) := by
    rw [hlen]
    omega
  have hempty : ((afterRead env st).buf.drop (env.fsRead st.w st.buf).n.toNat).length = 0 := by
    rw [List.length_drop, hlen, hn]
    simp
  have hev := errorChecks_isCheck_of_eq env _ _ _ _ _ _ hres
  unfold loop
  rw [step_full env st w2 evs hd he hc hres hrange hempty]
  refine ⟨rfl, ?_, ?_, ?_⟩
  · simp only
    rw [readCount_append, readCount_checks evs hev]
    simp [afterRead, readCount_append, readCount]
  · simp only
    rw [sleeps_append, errorChecks_sleeps_of_eq env _ _ _ _ _ _ hres, afterRead_sleeps]
    simp
  · exact afterRead_backoff env st

/-- C18 witness: the source fills the 10-byte buffer while reporting
end-of-stream, and reports `(0, io.EOF)` on an empty buffer; the calls return
`(10, nil)` and `(0, nil)` without a sleep. -/
theorem C18_buffer_filled_at_eof_returns_witness :
    ((Read (scriptEnv true false) (2 + 1) (readerAt0 cfgPlain) worldFullAtEOF buf10).2
        = some (Outcome.ret 10 none)
      ∧ sleeps (Read (scriptEnv true false) (2 + 1) (readerAt0 cfgPlain) worldFullAtEOF
          buf10).1.trace = [])
      ∧ (Read (scriptEnv true false) (2 + 1) (readerAt0 cfgPlain) worldOneEOF []).2
        = some (Outcome.ret 0 none) :=
  have h1 := C18_buffer_filled_at_eof_returns (scriptEnv true false) 2
    { r := readerAt0 cfgPlain, w := worldFullAtEOF, pre := [], buf := buf10, trace := [] }
    (by decide) (by decide) (by decide) (by decide) (by decide)
  have h2 := C18_buffer_filled_at_eof_returns (scriptEnv true false) 2
    { r := readerAt0 cfgPlain, w := worldOneEOF, pre := [], buf := [], trace := [] }
    (by decide) (by decide) (by decide) (by decide) (by decide)
  ⟨⟨h1.1, h1.2.2.1⟩, h2.1⟩

/-! ### C19: rename shadows removal -/

/-- C19 (amended): assume the identity comparison reports a mismatch whenever
the path cannot be statted, and the path is as statable after the comparison
as before it.  With `CloseRenamed` and `CloseRemoved` both on, `errorChecks` on
`io.EOF` does not return `ErrRemoved` unless the source stat itself fails with
that value; and with close-on-EOF off, a file whose source stat succeeds, that
is neither truncated nor inactive, and whose path cannot be statted is reported
as `ErrRenamed`. -/
theorem C19_rename_shadows_removal {W : Type} (env : Env W) (r : LogFileReader) (w : W)
    (hsame : ∀ w info, (env.osStat w).1.isSome = true → (env.isSameFile w info).1 = false)
    (hfs : ∀ w info, (env.osStat (env.isSameFile w info).2).1 = (env.osStat w).1)
    (hrn : r.config.CloseRenamed = true) (hrm : r.config.CloseRemoved = true) :
    ((env.fsStat w).1 ≠ .error Err.ErrRemoved →
        (errorChecks env r w Err.EOF).1 ≠ some Err.ErrRemoved)
      ∧ (∀ info w1, r.config.CloseEOF = false → env.fsStat w = (.ok info, w1) →
          ¬ info.size < r.offset →
          ¬ timeSince (env.now w1) r.lastTimeRead > r.config.CloseInactive →
          (env.osStat w1).1.isSome = true →
          (errorChecks env r w Err.EOF).1 = some Err.ErrRenamed) := by
  constructor
  · intro hstat
    unfold errorChecks
    by_cases hce : r.config.CloseEOF = true
    · simp [hce]
    · rw [if_neg (by simp [hce])]
      rcases hst : env.fsStat w with ⟨res, w1⟩
      rw [hst] at hstat
      cases res with
      | error e =>
        simp only at hstat ⊢
        intro h
        apply hstat
        simp only [Option.some.injEq] at h
        rw [h]
      | ok info =>
        simp only
        split_ifs with h1 h2
        · simp
        · simp
        · rcases hsf : env.isSameFile w1 info with ⟨b, w2⟩
          cases b with
          | false => simp
          | true =>
            simp only
            have hnone : (env.osStat w2).1 = none := by
              have h2 := hfs w1 info
              rw [hsf] at h2
              simp only at h2
              cases hos : (env.osStat w1).1 with
              | none => rw [h2, hos]
              | some e =>
                have h3 := hsame w1 info (by rw [hos]; rfl)
                rw [hsf] at h3
                simp at h3
            unfold removedCheck
            rw [if_pos hrm]
            rcases hos2 : env.osStat w2 with ⟨oe, w3⟩
            rw [hos2] at hnone
            simp only at hnone
            subst hnone
            simp
  · intro info w1 hce hst htr hin hgone
    have hmis := hsame w1 info hgone
    unfold errorChecks
    rw [if_neg (by simp [hce]), hst]
    simp only
    rw [if_neg htr, if_neg hin, if_pos hrn]
    rcases hsf : env.isSameFile w1 info with ⟨b, w2⟩
    rw [hsf] at hmis
    simp only at hmis
    subst hmis
    rfl

/-- C19 witness: both policies on, close-on-EOF off, the source stat succeeds
with size 100 above the offset 10, last read 50 time units ago (threshold 100),
the path gone: the diagnostics report `ErrRenamed`, not `ErrRemoved`. -/
theorem C19_rename_shadows_removal_witness :
    (errorChecks coherentEnv (readerAt10 cfgClosing) worldPathGone Err.EOF).1
        ≠ some Err.ErrRemoved
      ∧ (errorChecks coherentEnv (readerAt10 cfgClosing) worldPathGone Err.EOF).1
        = some Err.ErrRenamed :=
  have h := C19_rename_shadows_removal coherentEnv (readerAt10 cfgClosing) worldPathGone
    (fun w _ hgone => by
      cases hp : w.pathErr with
      | none =>
        have hg : w.pathErr.isSome = true := hgone
        rw [hp] at hg
        simp at hg
      | some e =>
        show (w.same && w.pathErr.isNone) = false
        rw [hp]
        simp)
    (fun _ _ => rfl) (by decide) (by decide)
  ⟨h.1 (by simp [coherentEnv, scriptEnv, worldPathGone]),
    h.2 { size := 100, ident := 1 } { worldPathGone with stats := [] }
    (by decide) rfl (by decide) (by decide) (by decide)⟩

/-- C19 counterexample: the identity comparison of `coherentEnv` reports a
mismatch whenever the path cannot be statted and leaves the world as it is, and
both policies are on.  With close-on-EOF on as well, a file whose path is gone
(not truncated, not inactive) is reported as `io.EOF`, not `ErrRenamed`; and
when the source stat fails with the `ErrRemoved` value, `errorChecks` returns
`ErrRemoved`. -/
theorem C19_counterexample_close_on_eof_and_stat_error :
    (∀ w info, (coherentEnv.osStat w).1.isSome = true → (coherentEnv.isSameFile w info).1 = false)
      ∧ (∀ w info, (coherentEnv.osStat (coherentEnv.isSameFile w info).2).1
          = (coherentEnv.osStat w).1)
      ∧ cfgCloseEOF.CloseRenamed = true ∧ cfgCloseEOF.CloseRemoved = true
      ∧ cfgClosing.CloseRenamed = true ∧ cfgClosing.CloseRemoved = true
      ∧ (coherentEnv.osStat worldPathGone).1.isSome = true
      ∧ (errorChecks coherentEnv (readerAt10 cfgCloseEOF) worldPathGone Err.EOF).1
        = some Err.EOF
      ∧ ¬ ((errorChecks coherentEnv (readerAt10 cfgCloseEOF) worldPathGone Err.EOF).1
        = some Err.ErrRenamed)
      ∧ (errorChecks coherentEnv (readerAt10 cfgClosing) worldStatRemoved Err.EOF).1
        = some Err.ErrRemoved := by
  refine ⟨?_, fun _ _ => rfl, by decide, by decide, by decide, by decide, by decide, by decide,
    by decide, by decide⟩
  intro w info hgone
  cases hp : w.pathErr with
  | none =>
    have hg : w.pathErr.isSome = true := hgone
    rw [hp] at hg
    simp at hg
  | some e =>
    show (w.same && w.pathErr.isNone) = false
    rw [hp]
    simp

/-! ### The durations handed to `time.Sleep` -/

theorem removedCheck_log {W : Type} (env : Env W) (r : LogFileReader) (s : W × List Int)
    (evs : List Event) : (removedCheck (recordSleeps env) r s evs).2.1.2 = s.2 := by
  unfold removedCheck
  split
  · split <;> rename_i h <;> simp only [recordSleeps, Prod.mk.injEq] at h <;> rw [← h.2]
  · rfl

theorem errorChecks_log {W : Type} (env : Env W) (r : LogFileReader) (s : W × List Int)
    (err : Err) : (errorChecks (recordSleeps env) r s err).2.1.2 = s.2 := by
  unfold errorChecks
  split
  · rfl
  · split
    · rename_i h
      simp only [recordSleeps, Prod.mk.injEq] at h
      rw [← h.2]
    · rename_i h
      simp only [recordSleeps, Prod.mk.injEq] at h
      split_ifs
      · rw [← h.2]
      · rw [← h.2]
      · split
        · rename_i h2
          simp only [recordSleeps, Prod.mk.injEq] at h2
          rw [← h2.2, ← h.2]
        · rename_i h2
          simp only [recordSleeps, Prod.mk.injEq] at h2
          rw [removedCheck_log, ← h2.2, ← h.2]
      · rw [removedCheck_log, ← h.2]

theorem errorChecks_log_of_eq {W : Type} (env : Env W) (r : LogFileReader)
    (s s2 : W × List Int) (err : Err) (oe : Option Err) (evs : List Event)
    (h : errorChecks (recordSleeps env) r s err = (oe, s2, evs)) : s2.2 = s.2 := by
  have hl := errorChecks_log env r s err
  rw [h] at hl
  exact hl

/-- The `wait` of the code hands its backoff, as it is on entry, to `time.Sleep`. -/
theorem wait_log {W : Type} (env : Env W) (r : LogFileReader) (s : W × List Int) :
    (wait (recordSleeps env) r s).2.2 = s.2 ++ [r.backoff] := by
  unfold wait
  simp only
  split_ifs <;> rfl

theorem afterRead_log {W : Type} (env : Env W) (st : St (W × List Int)) :
    (afterRead (recordSleeps env) st).w.2 = st.w.2 := rfl

/-- Under the recording environment an iteration keeps the recorded durations
equal to the sleeps of the trace: the duration `wait` hands to `time.Sleep` is
the one the trace shows. -/
theorem step_log {W : Type} (env : Env W) (st : St (W × List Int))
    (h : st.w.2 = sleeps st.trace) :
    (step (recordSleeps env) st).1.w.2 = sleeps (step (recordSleeps env) st).1.trace := by
  apply step_elim (recordSleeps env) st (fun res => res.1.w.2 = sleeps res.1.trace)
  · intro _
    exact h
  · intro _ _
    simp only
    rw [afterRead_sleeps, afterRead_log]
    exact h
  · intro e _ _ _
    simp only
    rw [afterRead_sleeps, afterRead_log]
    exact h
  · intro _ _ _
    simp only
    rw [afterRead_sleeps, afterRead_log]
    exact h
  · intro e w2 evs _ _ _ hchk
    simp only
    rw [sleeps_append, errorChecks_sleeps_of_eq _ _ _ _ _ _ _ hchk, afterRead_sleeps,
      errorChecks_log_of_eq env _ _ _ _ _ _ hchk, afterRead_log, List.append_nil]
    exact h
  · intro w2 evs _ _ _ hchk _
    simp only
    rw [sleeps_append, errorChecks_sleeps_of_eq _ _ _ _ _ _ _ hchk, afterRead_sleeps,
      errorChecks_log_of_eq env _ _ _ _ _ _ hchk, afterRead_log, List.append_nil]
    exact h
  · intro w2 evs _ _ _ hchk _ _
    simp only
    rw [sleeps_append, errorChecks_sleeps_of_eq _ _ _ _ _ _ _ hchk, afterRead_sleeps,
      errorChecks_log_of_eq env _ _ _ _ _ _ hchk, afterRead_log, List.append_nil]
    exact h
  · intro w2 evs _ _ _ hchk _ _
    simp only
    rw [wait_log, sleeps_append, sleeps_append, errorChecks_sleeps_of_eq _ _ _ _ _ _ _ hchk,
      afterRead_sleeps, errorChecks_log_of_eq env _ _ _ _ _ _ hchk, afterRead_log, h]
    simp [sleeps]

theorem loop_log {W : Type} (env : Env W) :
    ∀ (fuel : Nat) (st : St (W × List Int)), st.w.2 = sleeps st.trace →
      (loop (recordSleeps env) fuel st).1.w.2
        = sleeps (loop (recordSleeps env) fuel st).1.trace := by
  intro fuel
  induction fuel with
  | zero =>
    intro st h
    exact h
  | succ fuel ih =>
    intro st h
    have hs := step_log env st h
    unfold loop
    rcases hres : step (recordSleeps env) st with ⟨st1, o⟩
    rw [hres] at hs
    cases o with
    | none => exact ih st1 hs
    | some out => exact hs

/-- An iteration after which the loop goes round again has read end-of-stream. -/
theorem step_retry_readErrs {W : Type} (env : Env W) (st : St W)
    (h : (step env st).2 = none) :
    readErrs (step env st).1.trace = readErrs st.trace ++ [some Err.EOF] := by
  revert h
  apply step_elim env st (fun res => res.2 = none →
    readErrs res.1.trace = readErrs st.trace ++ [some Err.EOF])
  · intro _ h
    simp at h
  · intro _ _ h
    simp at h
  · intro e _ _ _ h
    simp at h
  · intro _ _ _ h
    simp at h
  · intro e w2 evs _ _ _ _ h
    simp at h
  · intro w2 evs _ _ _ _ _ h
    simp at h
  · intro w2 evs _ _ _ _ _ _ h
    simp at h
  · intro w2 evs _ he _ hchk _ _ _
    simp only
    rw [readErrs_append, readErrs_append,
      readErrs_checks evs (errorChecks_isCheck_of_eq env _ _ _ _ _ _ hchk), afterRead_readErrs,
      he]
    simp [readErrs]

/-- The sleeps of a loop run started on the schedule: as many as the run has
retries, on the schedule. -/
theorem loop_schedule_retries {W : Type} (env : Env W) (cfg : LogFileReaderConfig)
    (h0 : 0 ≤ cfg.Backoff) (hf : 1 ≤ cfg.BackoffFactor)
    (hov : cfg.MaxBackoff * cfg.BackoffFactor ≤ maxInt64) :
    ∀ (fuel : Nat) (st : St W) (j : Nat), st.r.config = cfg →
      st.r.backoff = min (cfg.Backoff * cfg.BackoffFactor ^ j) cfg.MaxBackoff →
      sleeps st.trace = backoffSchedule cfg.Backoff cfg.BackoffFactor cfg.MaxBackoff j →
      sleeps (loop env fuel st).1.trace
        = backoffSchedule cfg.Backoff cfg.BackoffFactor cfg.MaxBackoff
            (j + retries env fuel st) := by
  intro fuel
  induction fuel with
  | zero =>
    intro st j _ _ hs
    simpa [loop, retries] using hs
  | succ fuel ih =>
    intro st j hcfg hb hs
    have hstep := step_schedule env cfg st j h0 hf hov hcfg hb hs
    unfold loop retries
    rcases hres : step env st with ⟨st1, o⟩
    rw [hres] at hstep
    cases o with
    | none =>
      obtain ⟨hc1, hb1, hs1⟩ := hstep.1 rfl
      have := ih st1 (j + 1) hc1 hb1 hs1
      simp only
      rw [this]
      congr 1
      omega
    | some out =>
      simpa using hstep.2 (by simp)

/-- A loop run of `k` iterations that has not returned has `k` retries, each
after a read of end-of-stream. -/
theorem loop_retries_of_running {W : Type} (env : Env W) :
    ∀ (k : Nat) (st : St W), (loop env k st).2 = none →
      retries env k st = k
        ∧ readErrs (loop env k st).1.trace
            = readErrs st.trace ++ List.replicate k (some Err.EOF) := by
  intro k
  induction k with
  | zero =>
    intro st _
    simp [loop, retries]
  | succ k ih =>
    intro st
    have hr := step_retry_readErrs env st
    unfold loop retries
    rcases hres : step env st with ⟨st1, o⟩
    rw [hres] at hr
    cases o with
    | none =>
      simp only
      intro h
      obtain ⟨h1, h2⟩ := ih st1 h
      refine ⟨by rw [h1], ?_⟩
      rw [h2, hr rfl, List.append_assoc]
      rfl
    | some out =>
      intro h
      simp at h

/-! ### C3: the waits of a `Read` call -/

/-- C3 (amended): for every configuration with `0 <= b <= m`, growth factor
`f >= 1` and `m * f` within `int64`, and every `Read` call entered with the
backoff equal to `b`.  The durations the call hands to `time.Sleep`, in order,
are `min (b * f ^ (i - 1)) m` for `i = 1, ..., n`, with `n` the number of
retries the call has gone through, whatever the fuel (so also for a call that
has returned).  And a call whose first `k` iterations all go round again has
`k` retries, each after a read of end-of-stream, and has slept exactly the
first `k` durations of that schedule. -/
theorem C3_sleeps_follow_backoff_schedule {W : Type} (env : Env W) (fuel k : Nat)
    (r : LogFileReader) (w : W) (buf : List Byte)
    (hb : r.backoff = r.config.Backoff)
    (h0 : 0 ≤ r.config.Backoff) (hbm : r.config.Backoff ≤ r.config.MaxBackoff)
    (hf : 1 ≤ r.config.BackoffFactor)
    (hov : r.config.MaxBackoff * r.config.BackoffFactor ≤ maxInt64) :
    (Read (recordSleeps env) fuel r (w, []) buf).1.w.2
        = backoffSchedule r.config.Backoff r.config.BackoffFactor r.config.MaxBackoff
            (retries (recordSleeps env) fuel
              { r := r, w := (w, []), pre := [], buf := buf, trace := [] })
      ∧ ((Read (recordSleeps env) k r (w, []) buf).2 = none →
          retries (recordSleeps env) k
              { r := r, w := (w, []), pre := [], buf := buf, trace := [] } = k
            ∧ readErrs (Read (recordSleeps env) k r (w, []) buf).1.trace
              = List.replicate k (some Err.EOF)
            ∧ (Read (recordSleeps env) k r (w, []) buf).1.w.2
              = backoffSchedule r.config.Backoff r.config.BackoffFactor r.config.MaxBackoff k) := by
  have hsched : ∀ n : Nat, (Read (recordSleeps env) n r (w, []) buf).1.w.2
      = backoffSchedule r.config.Backoff r.config.BackoffFactor r.config.MaxBackoff
          (retries (recordSleeps env) n
            { r := r, w := (w, []), pre := [], buf := buf, trace := [] }) := by
    intro n
    have hlog := loop_log env n { r := r, w := (w, []), pre := [], buf := buf, trace := [] } rfl
    have hs := loop_schedule_retries (recordSleeps env) r.config h0 hf hov n
      { r := r, w := (w, []), pre := [], buf := buf, trace := [] } 0 rfl
      (by simpa [min_eq_left hbm] using hb) (by simp [sleeps, backoffSchedule])
    unfold Read
    rw [hlog, hs, zero_add]
  refine ⟨hsched fuel, fun hrun => ?_⟩
  have hk := loop_retries_of_running (recordSleeps env) k
    { r := r, w := (w, []), pre := [], buf := buf, trace := [] } hrun
  refine ⟨hk.1, ?_, ?_⟩
  · have h2 := hk.2
    simp only [readErrs, List.nil_append] at h2
    exact h2
  · have h3 := hsched k
    rw [hk.1] at h3
    exact h3

/-- C3 witness: base 2, cap 10, factor 3 and four end-of-stream polls: after
the four retries `time.Sleep` has received 2, 6, 10, 10, and the call that then
returns has slept these and no more. -/
theorem C3_sleeps_follow_backoff_schedule_witness :
    (Read (recordSleeps (scriptEnv true false)) 4 (readerAt0 cfgSlow) (worldFourEOF, [])
        buf10).2 = none
      ∧ (Read (recordSleeps (scriptEnv true false)) 4 (readerAt0 cfgSlow) (worldFourEOF, [])
        buf10).1.w.2 = [2, 6, 10, 10]
      ∧ (Read (recordSleeps (scriptEnv true false)) 9 (readerAt0 cfgSlow) (worldFourEOF, [])
        buf10).1.w.2 = [2, 6, 10, 10]
      ∧ (Read (recordSleeps (scriptEnv true false)) 9 (readerAt0 cfgSlow) (worldFourEOF, [])
        buf10).1.w.2
        = backoffSchedule (readerAt0 cfgSlow).config.Backoff
            (readerAt0 cfgSlow).config.BackoffFactor (readerAt0 cfgSlow).config.MaxBackoff
            (retries (recordSleeps (scriptEnv true false)) 9
              { r := readerAt0 cfgSlow, w := (worldFourEOF, []), pre := [], buf := buf10,
                trace := [] })
      ∧ (Read (recordSleeps (scriptEnv true false)) 4 (readerAt0 cfgSlow) (worldFourEOF, [])
        buf10).1.w.2
        = backoffSchedule (readerAt0 cfgSlow).config.Backoff
            (readerAt0 cfgSlow).config.BackoffFactor (readerAt0 cfgSlow).config.MaxBackoff 4 :=
  have h := C3_sleeps_follow_backoff_schedule (scriptEnv true false) 9 4 (readerAt0 cfgSlow)
    worldFourEOF buf10 (by decide) (by decide) (by decide) (by decide) (by decide)
  ⟨by decide, by decide, by decide, h.1, (h.2 (by decide)).2.2⟩

/-- C3 counterexample: base 10, cap 5, factor 2 (so `f >= 1`), the reader's
backoff equal to the base, one end-of-stream poll: the call goes through one
retry and `time.Sleep` receives 10 before it, not `min (10 * 2 ^ 0) 5 = 5`. -/
theorem C3_counterexample_base_above_cap :
    (readerAt0 cfgInverted).backoff = cfgInverted.Backoff
      ∧ 1 ≤ cfgInverted.BackoffFactor
      ∧ (Read (recordSleeps (scriptEnv true false)) 1 (readerAt0 cfgInverted) (worldOneEOF, [])
          buf10).2 = none
      ∧ (Read (recordSleeps (scriptEnv true false)) 1 (readerAt0 cfgInverted) (worldOneEOF, [])
          buf10).1.w.2 = [10]
      ∧ backoffSchedule cfgInverted.Backoff cfgInverted.BackoffFactor cfgInverted.MaxBackoff 1
        = [5]
      ∧ ¬ ((Read (recordSleeps (scriptEnv true false)) 1 (readerAt0 cfgInverted)
            (worldOneEOF, []) buf10).1.w.2
          = backoffSchedule cfgInverted.Backoff cfgInverted.BackoffFactor
              cfgInverted.MaxBackoff 1)
      ∧ sleeps (Read (scriptEnv true false) 5 (readerAt0 cfgInverted) worldOneEOF buf10).1.trace
        = [10] := by
  decide

/-! ### C11: the backoff scenario -/

/-- C11: backoff 1, cap 8, factor 2, inactivity threshold 100, no close policy;
the continuable scripted source yields 10 bytes, end-of-stream three times, then
5 bytes; the stat size 1000000 is never below the offset (`off + 15 <= 1000000`);
both caller buffers hold at least 10 bytes.  The first `Read` returns `(10, nil)`
with backoff 1 and the 10 bytes in the buffer.  The second `Read`, after three
iterations, has handed 1, 2, 4 to `time.Sleep` in that order (the scripted clock
stands at 7) and holds backoff 8; run on, it returns `(5, nil)` having slept
1, 2, 4 and no more, with backoff 1 and offset `off + 15`. -/
theorem C11_backoff_scenario (buf1 buf2 : List Byte) (off : Int) (fuel : Nat)
    (h1 : 10 ≤ buf1.length) (h2 : 10 ≤ buf2.length)
    (h0 : 0 ≤ off) (hoff : off + 15 ≤ 1000000) :
    (scenarioFirst buf1 off fuel).2 = some (Outcome.ret 10 none)
      ∧ (scenarioFirst buf1 off fuel).1.r.backoff = 1
      ∧ (scenarioFirst buf1 off fuel).1.buffer.take 10 = [1, 2, 3, 4, 5, 6, 7, 8, 9, 10]
      ∧ (scenarioSecond buf1 buf2 off fuel 3).2 = none
      ∧ sleeps (scenarioSecond buf1 buf2 off fuel 3).1.trace = [1, 2, 4]
      ∧ (scenarioSecond buf1 buf2 off fuel 3).1.r.backoff = 8
      ∧ (scenarioSecond buf1 buf2 off fuel (fuel + 4)).2 = some (Outcome.ret 5 none)
      ∧ sleeps (scenarioSecond buf1 buf2 off fuel (fuel + 4)).1.trace = [1, 2, 4]
      ∧ (scenarioSecond buf1 buf2 off fuel (fuel + 4)).1.r.backoff = 1
      ∧ (scenarioSecond buf1 buf2 off fuel (fuel + 4)).1.r.offset = off + 15
      ∧ (scenarioSecond buf1 buf2 off fuel (fuel + 4)).1.buffer.take 5 = [11, 12, 13, 14, 15]
      ∧ (scenarioSecondRecorded buf1 buf2 off fuel 1).1.w.2 = [1]
      ∧ (scenarioSecondRecorded buf1 buf2 off fuel 2).1.w.2 = [1, 2]
      ∧ (scenarioSecondRecorded buf1 buf2 off fuel 3).1.w.2 = [1, 2, 4]
      ∧ (scenarioSecondRecorded buf1 buf2 off fuel 3).2 = none
      ∧ (scenarioSecondRecorded buf1 buf2 off fuel 3).1.r.backoff = 8
      ∧ (scenarioSecondRecorded buf1 buf2 off fuel (fuel + 4)).1.w.2 = [1, 2, 4]
      ∧ (scenarioSecondRecorded buf1 buf2 off fuel (fuel + 4)).2 = some (Outcome.ret 5 none)
      ∧ (scenarioSecondRecorded buf1 buf2 off fuel (fuel + 4)).1.r.backoff = 1
      ∧ (scenarioSecondRecorded buf1 buf2 off fuel (fuel + 4)).1.r.offset = off + 15
      ∧ (scenarioFirst buf1 off fuel).1.w.clock = 0
      ∧ (scenarioSecond buf1 buf2 off fuel (fuel + 4)).1.w.clock = 7 := by
  have e1 : wrapInt64 (off + 10) = off + 10 :=
    wrapInt64_of_range _ (by unfold minInt64; omega) (by unfold maxInt64; omega)
  have e2 : wrapInt64 (off + 10 + 5) = off + 10 + 5 :=
    wrapInt64_of_range _ (by unfold minInt64; omega) (by unfold maxInt64; omega)
  have e3 : ¬ (1000000 < off + 10) := by omega
  have e4 : buf2 ≠ [] := by
    intro h
    rw [h] at h2
    simp at h2
  have e5 : ¬ ((buf2.length : Int) < 0) := by omega
  have e6 : (writeInto buf1 [1, 2, 3, 4, 5, 6, 7, 8, 9, 10]).take 10
      = [1, 2, 3, 4, 5, 6, 7, 8, 9, 10] :=
    writeInto_take buf1 [1, 2, 3, 4, 5, 6, 7, 8, 9, 10] h1
  have e7 : (writeInto buf2 [11, 12, 13, 14, 15]).take 5 = [11, 12, 13, 14, 15] :=
    writeInto_take buf2 [11, 12, 13, 14, 15] (by simp; omega)
  have w2 : wrapInt64 2 = 2 := by decide
  have w4 : wrapInt64 4 = 4 := by decide
  have w8 : wrapInt64 8 = 8 := by decide
  simp [scenarioFirst, scenarioSecond, scenarioSecondRecorded, recordSleeps, Read, loop, step,
    scriptEnv, worldScenario, worldOf, afterRead, errorChecks, removedCheck, wait, noteRead,
    writeInto_length, writeInto_nil, cfgPlain, readerAt, timeSince, maxInt64, minInt64,
    St.buffer, sleeps, e1, e2, e3, e4, e5, e6, e7, w2, w4, w8]
  omega

/-- C11 witness: both buffers of ten bytes, initial offset 0. -/
theorem C11_backoff_scenario_witness :
    (scenarioFirst buf10 0 0).2 = some (Outcome.ret 10 none)
      ∧ (scenarioSecondRecorded buf10 buf10 0 0 3).1.w.2 = [1, 2, 4]
      ∧ (scenarioSecondRecorded buf10 buf10 0 0 3).1.r.backoff = 8
      ∧ (scenarioSecondRecorded buf10 buf10 0 0 (0 + 4)).1.w.2 = [1, 2, 4]
      ∧ (scenarioSecond buf10 buf10 0 0 (0 + 4)).2 = some (Outcome.ret 5 none)
      ∧ (scenarioSecond buf10 buf10 0 0 (0 + 4)).1.r.backoff = 1
      ∧ (scenarioSecond buf10 buf10 0 0 (0 + 4)).1.r.offset = 0 + 15
      ∧ (scenarioSecond buf10 buf10 0 0 (0 + 4)).1.w.clock = 7 :=
  have h := C11_backoff_scenario buf10 buf10 0 0 (by decide) (by decide) (by decide) (by decide)
  ⟨h.1, h.2.2.2.2.2.2.2.2.2.2.2.2.2.1, h.2.2.2.2.2.2.2.2.2.2.2.2.2.2.2.1,
    h.2.2.2.2.2.2.2.2.2.2.2.2.2.2.2.2.1, h.2.2.2.2.2.2.1, h.2.2.2.2.2.2.2.2.1,
    h.2.2.2.2.2.2.2.2.2.1, h.2.2.2.2.2.2.2.2.2.2.2.2.2.2.2.2.2.2.2.2.2⟩

end Beats
